import Mathlib

/-!
Verification of the raster tile priority queue
(`cc/resources/raster_tile_priority_queue.cc`).

The development shallowly embeds the data model and the operations of the
queue: the tree-priority policy, per-tile priorities, the paired per-layer
tile queues with their shared-tile skipping discipline, the raster order
comparator, and the outer heap of paired queues.  External collaborators
(tiles, the tiling-set iterators, the standard-library heap primitives)
are not part of the translated source file; they are modelled from the
specification's interface contracts and marked as such.
-/

namespace RasterTPQ

/-- Global scheduler mode (`TreePriority`). -/
inductive TreePriority where
  | SAME_PRIORITY_FOR_BOTH_TREES
  | SMOOTHNESS_TAKES_PRIORITY
  | NEW_CONTENT_TAKES_PRIORITY
deriving DecidableEq, Repr

export TreePriority (SAME_PRIORITY_FOR_BOTH_TREES SMOOTHNESS_TAKES_PRIORITY
  NEW_CONTENT_TAKES_PRIORITY)

/-- Which of the two layer trees a tile or queue belongs to (`WhichTree`). -/
inductive WhichTree where
  | ACTIVE_TREE
  | PENDING_TREE
deriving DecidableEq, Repr

export WhichTree (ACTIVE_TREE PENDING_TREE)

/-- Coarse urgency class of a tile (`TilePriority::PriorityBin`), ordered
`NOW > SOON > EVENTUALLY` (numerically `NOW = 0` is the most urgent, as in
the C++ enum). -/
inductive PriorityBin where
  | NOW
  | SOON
  | EVENTUALLY
deriving DecidableEq, Repr

export PriorityBin (NOW SOON EVENTUALLY)

/-- The numeric value of the C++ `PriorityBin` enum; smaller means more
urgent. -/
def binVal : PriorityBin → Nat
  | NOW => 0
  | SOON => 1
  | EVENTUALLY => 2

/-- Rendering scale class of a tile (`TileResolution`). -/
inductive TileResolution where
  | LOW_RESOLUTION
  | HIGH_RESOLUTION
  | NON_IDEAL_RESOLUTION
deriving DecidableEq, Repr

export TileResolution (LOW_RESOLUTION HIGH_RESOLUTION NON_IDEAL_RESOLUTION)

/-- Per-tree priority record of a tile (`TilePriority`).  The C++ field
`distance_to_visible` is a float; it is modelled as a rational, which has
the same (total) ordering behaviour on the finite values the code
compares. -/
structure TilePriority where
  priority_bin : PriorityBin
  resolution : TileResolution
  distance_to_visible : ℚ
deriving DecidableEq, Repr

/-- Modelled from the spec: `TilePriority::IsHigherPriorityThan` lives in
`cc/resources/tile_priority.h`, which is not among the translated sources.
Spec §4.2: `x.bin > y.bin ∨ (bins equal ∧ x.distance_to_visible <
y.distance_to_visible)`, where a "higher" bin is the numerically smaller
enum value (`NOW` highest). -/
def TilePriority.IsHigherPriorityThan (x y : TilePriority) : Bool :=
  decide (binVal x.priority_bin < binVal y.priority_bin) ||
    (decide (x.priority_bin = y.priority_bin) &&
      decide (x.distance_to_visible < y.distance_to_visible))

/-- The external tile model: an identity carrying one `TilePriority` per
tree and a shared flag.  Modelled from the spec (§3, §6): `Tile` is an
opaque provider with `priority(WhichTree)` and `is_shared()`. -/
structure Tile where
  active_priority : TilePriority
  pending_priority : TilePriority
  shared : Bool
deriving DecidableEq, Repr

/-- `Tile::priority(WhichTree)`. -/
def Tile.priority (t : Tile) : WhichTree → TilePriority
  | ACTIVE_TREE => t.active_priority
  | PENDING_TREE => t.pending_priority

/-- `Tile::is_shared()`. -/
def Tile.is_shared (t : Tile) : Bool := t.shared

/-- Modelled from the spec: `Tile::priority_for_tree_priority` is declared
in `cc/resources/tile.h`, not among the translated sources.  Spec §6: it
selects `priority(ACTIVE)` for `SMOOTHNESS_TAKES_PRIORITY` and
`SAME_PRIORITY_FOR_BOTH_TREES`, and `priority(PENDING)` for
`NEW_CONTENT_TAKES_PRIORITY`. -/
def Tile.priority_for_tree_priority (t : Tile) : TreePriority → TilePriority
  | SMOOTHNESS_TAKES_PRIORITY => t.priority ACTIVE_TREE
  | SAME_PRIORITY_FOR_BOTH_TREES => t.priority ACTIVE_TREE
  | NEW_CONTENT_TAKES_PRIORITY => t.priority PENDING_TREE

instance : Inhabited TilePriority :=
  ⟨{ priority_bin := EVENTUALLY, resolution := HIGH_RESOLUTION,
     distance_to_visible := 0 }⟩

instance : Inhabited Tile :=
  ⟨{ active_priority := default, pending_priority := default, shared := false }⟩

/-- The external tiling-set iterator (`TilingSetRasterQueue`) is modelled
from the spec (§3, §6) as the list of tiles it will enumerate: `empty` is
`List.isEmpty`, `top` the head, `pop` the tail. -/
def TilingSetRasterQueue : Type := List Tile

instance : DecidableEq TilingSetRasterQueue :=
  inferInstanceAs (DecidableEq (List Tile))

/-- `TilingSetRasterQueue::IsEmpty` on an optionally-present queue: a null
pointer counts as empty (matches the `!queue || queue->IsEmpty()`
pattern of the source). -/
def queueEmpty : Option (List Tile) → Bool
  | none => true
  | some l => l.isEmpty

/-- Dereferencing `queue->Top()`.  The source only evaluates it behind
`DCHECK`-guarded non-emptiness; a default tile stands in for the undefined
behaviour of an empty dereference. -/
def queueTop (q : Option (List Tile)) : Tile :=
  ((q.getD []).headD default)

/-- One layer pair as produced by the external layer model
(`PictureLayerImpl::Pair`); each present layer is modelled from the spec
(§6) by the tile list its `CreateRasterQueue` iterator will enumerate. -/
structure LayerPair where
  active : Option (List Tile)
  pending : Option (List Tile)
deriving DecidableEq, Repr

/-- State of `RasterTilePriorityQueue::PairedTilingSetQueue`: up to two
iterators plus the `has_both_layers` flag set at construction. -/
structure PairedTilingSetQueue where
  active_queue : Option (List Tile)
  pending_queue : Option (List Tile)
  has_both_layers : Bool
deriving DecidableEq, Repr

/-- `PairedTilingSetQueue::IsEmpty`. -/
def PairedTilingSetQueue.IsEmpty (q : PairedTilingSetQueue) : Bool :=
  queueEmpty q.active_queue && queueEmpty q.pending_queue

/-- `HigherPriorityTree` (anonymous namespace of the source file): given
the policy, the two iterators and an optional shared tile, decide which
tree is preferred.  With a shared tile supplied, both priorities are read
from that tile instead of the iterators' tops. -/
def HigherPriorityTree (tree_priority : TreePriority)
    (active_queue pending_queue : Option (List Tile))
    (shared_tile : Option Tile) : WhichTree :=
  match tree_priority with
  | SMOOTHNESS_TAKES_PRIORITY =>
    let active_tile := shared_tile.getD (queueTop active_queue)
    let pending_tile := shared_tile.getD (queueTop pending_queue)
    let active_priority := active_tile.priority ACTIVE_TREE
    let pending_priority := pending_tile.priority PENDING_TREE
    if active_priority.priority_bin = EVENTUALLY ∧
        pending_priority.priority_bin = NOW then
      PENDING_TREE
    else
      ACTIVE_TREE
  | NEW_CONTENT_TAKES_PRIORITY => PENDING_TREE
  | SAME_PRIORITY_FOR_BOTH_TREES =>
    let active_tile := shared_tile.getD (queueTop active_queue)
    let pending_tile := shared_tile.getD (queueTop pending_queue)
    let active_priority := active_tile.priority ACTIVE_TREE
    let pending_priority := pending_tile.priority PENDING_TREE
    if active_priority.IsHigherPriorityThan pending_priority then ACTIVE_TREE
    else PENDING_TREE

/-- `PairedTilingSetQueue::NextTileIteratorTree`. -/
def PairedTilingSetQueue.NextTileIteratorTree (q : PairedTilingSetQueue)
    (tree_priority : TreePriority) : WhichTree :=
  if queueEmpty q.active_queue then PENDING_TREE
  else if queueEmpty q.pending_queue then ACTIVE_TREE
  else HigherPriorityTree tree_priority q.active_queue q.pending_queue none

/-- The iterator selected by `NextTileIteratorTree` (the
`next_tree == ACTIVE_TREE ? active_queue.get() : pending_queue.get()`
pattern of the source). -/
def PairedTilingSetQueue.nextQueue (q : PairedTilingSetQueue)
    (tree_priority : TreePriority) : Option (List Tile) :=
  if q.NextTileIteratorTree tree_priority = ACTIVE_TREE then q.active_queue
  else q.pending_queue

/-- `PairedTilingSetQueue::Top`. -/
def PairedTilingSetQueue.Top (q : PairedTilingSetQueue)
    (tree_priority : TreePriority) : Tile :=
  queueTop (q.nextQueue tree_priority)

/-- Steps 4 and 5 of the comparator: the code from the
"If the bin is the same but the resolution is not" check to the final
`b_priority.IsHigherPriorityThan(a_priority)` fallback
(`RasterOrderComparator::operator()`, after the smoothness block). -/
def ResolutionAndDistanceRule (prioritize_low_res : Bool)
    (a_priority b_priority : TilePriority) : Bool :=
  if b_priority.priority_bin = a_priority.priority_bin ∧
      b_priority.resolution ≠ a_priority.resolution then
    if a_priority.resolution = NON_IDEAL_RESOLUTION then true
    else if b_priority.resolution = NON_IDEAL_RESOLUTION then false
    else if prioritize_low_res then
      decide (b_priority.resolution = LOW_RESOLUTION)
    else
      decide (b_priority.resolution = HIGH_RESOLUTION)
  else
    b_priority.IsHigherPriorityThan a_priority

/-- The tile-level body of `RasterOrderComparator::operator()` — the code
from the `priority_for_tree_priority` reads onward, applied to the two
selected top tiles. -/
def TileCompare (tree_priority : TreePriority) (a_tile b_tile : Tile) : Bool :=
  let a_priority := a_tile.priority_for_tree_priority tree_priority
  let b_priority := b_tile.priority_for_tree_priority tree_priority
  let prioritize_low_res : Bool :=
    decide (tree_priority = SMOOTHNESS_TAKES_PRIORITY)
  if prioritize_low_res ∧ a_priority.priority_bin = EVENTUALLY ∧
      b_priority.priority_bin = EVENTUALLY then
    let a_is_pending_now : Bool :=
      decide ((a_tile.priority PENDING_TREE).priority_bin = NOW)
    let b_is_pending_now : Bool :=
      decide ((b_tile.priority PENDING_TREE).priority_bin = NOW)
    if a_is_pending_now || b_is_pending_now then
      !a_is_pending_now && b_is_pending_now
    else
      ResolutionAndDistanceRule prioritize_low_res a_priority b_priority
  else
    ResolutionAndDistanceRule prioritize_low_res a_priority b_priority

/-- `RasterOrderComparator::operator()`: true iff `a` is strictly lower
priority than `b`. -/
def RasterOrderComparator (tree_priority : TreePriority)
    (a b : PairedTilingSetQueue) : Bool :=
  if a.IsEmpty || b.IsEmpty then !b.IsEmpty && a.IsEmpty
  else TileCompare tree_priority (a.Top tree_priority) (b.Top tree_priority)

/-- `queue->Pop()` on an optionally-present iterator. -/
def popQueue : Option (List Tile) → Option (List Tile)
  | none => none
  | some l => some l.tail

/-- The unconditional part of `PairedTilingSetQueue::Pop`: advance the
iterator selected by `NextTileIteratorTree`. -/
def PairedTilingSetQueue.popSelected (q : PairedTilingSetQueue)
    (tree_priority : TreePriority) : PairedTilingSetQueue :=
  if q.NextTileIteratorTree tree_priority = ACTIVE_TREE then
    { q with active_queue := popQueue q.active_queue }
  else
    { q with pending_queue := popQueue q.pending_queue }

/-- Total number of tiles left in both iterators of a pair. -/
def PairedTilingSetQueue.size (q : PairedTilingSetQueue) : Nat :=
  (q.active_queue.getD []).length + (q.pending_queue.getD []).length

/-- The loop body of `PairedTilingSetQueue::SkipTilesReturnedByTwin`,
written with explicit fuel (each iteration consumes one tile, so
`q.size` steps always suffice). -/
def skipLoop (tree_priority : TreePriority) :
    Nat → PairedTilingSetQueue → PairedTilingSetQueue
  | 0, q => q
  | fuel + 1, q =>
    if q.IsEmpty then q
    else
      let next_tree := q.NextTileIteratorTree tree_priority
      let tile := q.Top tree_priority
      if tile.is_shared = false then q
      else if next_tree =
          HigherPriorityTree tree_priority none none (some tile) then q
      else skipLoop tree_priority fuel (q.popSelected tree_priority)

/-- `PairedTilingSetQueue::SkipTilesReturnedByTwin`. -/
def PairedTilingSetQueue.SkipTilesReturnedByTwin (q : PairedTilingSetQueue)
    (tree_priority : TreePriority) : PairedTilingSetQueue :=
  skipLoop tree_priority q.size q

/-- The `PairedTilingSetQueue(layer_pair, tree_priority)` constructor:
adopt the iterators each present layer creates, set `has_both_layers`,
and run the skip loop when both layers are present. -/
def mkPairedTilingSetQueue (layer_pair : LayerPair)
    (tree_priority : TreePriority) : PairedTilingSetQueue :=
  let q : PairedTilingSetQueue :=
    { active_queue := layer_pair.active
      pending_queue := layer_pair.pending
      has_both_layers := layer_pair.active.isSome && layer_pair.pending.isSome }
  if q.has_both_layers then q.SkipTilesReturnedByTwin tree_priority else q

/-- `PairedTilingSetQueue::Pop`: advance the selected iterator, then
re-run the skip loop when the pair has both layers. -/
def PairedTilingSetQueue.Pop (q : PairedTilingSetQueue)
    (tree_priority : TreePriority) : PairedTilingSetQueue :=
  let q' := q.popSelected tree_priority
  if q.has_both_layers then q'.SkipTilesReturnedByTwin tree_priority else q'

/-- The sequence of tiles an exhaustive sequence of `Pop` calls emits
from a pair, with explicit fuel. -/
def drainF (tree_priority : TreePriority) :
    Nat → PairedTilingSetQueue → List Tile
  | 0, _ => []
  | fuel + 1, q =>
    if q.IsEmpty then []
    else q.Top tree_priority :: drainF tree_priority fuel (q.Pop tree_priority)

/-- The full emission sequence of a pair (each `Pop` consumes at least
one tile, so `q.size` steps of fuel always suffice). -/
def PairedTilingSetQueue.drain (q : PairedTilingSetQueue)
    (tree_priority : TreePriority) : List Tile :=
  drainF tree_priority q.size q

/-- One of the two dictionaries emitted by
`PairedTilingSetQueue::StateAsValue`. -/
structure QueueStateDict where
  has_tile : Bool
  active_priority_bin : PriorityBin
  pending_priority_bin : PriorityBin
deriving DecidableEq, Repr

/-- The traced state emitted by `PairedTilingSetQueue::StateAsValue`:
the "active_queue" and "pending_queue" dictionaries. -/
structure PairedQueueState where
  active_queue_dict : QueueStateDict
  pending_queue_dict : QueueStateDict
deriving DecidableEq, Repr

/-- `PairedTilingSetQueue::StateAsValue`, translated field by field; in
the source the pending dictionary's `"has_tile"` is set from
`active_queue_has_tile`. -/
def PairedTilingSetQueue.StateAsValue (q : PairedTilingSetQueue) :
    PairedQueueState :=
  let active_queue_has_tile := !queueEmpty q.active_queue
  let active_dict : QueueStateDict :=
    if active_queue_has_tile then
      { has_tile := active_queue_has_tile
        active_priority_bin :=
          ((queueTop q.active_queue).priority ACTIVE_TREE).priority_bin
        pending_priority_bin :=
          ((queueTop q.active_queue).priority PENDING_TREE).priority_bin }
    else
      { has_tile := active_queue_has_tile
        active_priority_bin := EVENTUALLY
        pending_priority_bin := EVENTUALLY }
  let pending_queue_has_tile := !queueEmpty q.pending_queue
  let pending_dict : QueueStateDict :=
    if pending_queue_has_tile then
      { has_tile := active_queue_has_tile
        active_priority_bin :=
          ((queueTop q.pending_queue).priority ACTIVE_TREE).priority_bin
        pending_priority_bin :=
          ((queueTop q.pending_queue).priority PENDING_TREE).priority_bin }
    else
      { has_tile := active_queue_has_tile
        active_priority_bin := EVENTUALLY
        pending_priority_bin := EVENTUALLY }
  { active_queue_dict := active_dict, pending_queue_dict := pending_dict }

instance : Inhabited PairedTilingSetQueue :=
  ⟨{ active_queue := none, pending_queue := none, has_both_layers := false }⟩

/-- Indexing with a default element (the reading side of the modelled
`std` random-access heap range). -/
def geth [Inhabited α] (l : List α) (i : Nat) : α := l.getD i default

/-- Swapping two positions of the modelled random-access range. -/
def lswap [Inhabited α] (l : List α) (i j : Nat) : List α :=
  (l.set i (geth l j)).set j (geth l i)

/-- Modelled from the spec: `std::push_heap`-style sift-up (spec §4.4:
"re-insert by sifting up"); the standard-library heap primitives are not
part of this repository.  Written with explicit fuel; `j` steps always
suffice. -/
def siftUpF [Inhabited α] (cmp : α → α → Bool) :
    Nat → List α → Nat → List α
  | 0, l, _ => l
  | fuel + 1, l, j =>
    if j = 0 then l
    else
      let p := (j - 1) / 2
      if cmp (geth l p) (geth l j) then siftUpF cmp fuel (lswap l p j) p
      else l

/-- Modelled from the spec: `std::push_heap` — sift the last element of
the range up. -/
def pushHeap [Inhabited α] (cmp : α → α → Bool) (l : List α) : List α :=
  siftUpF cmp l.length l (l.length - 1)

/-- Modelled from the spec: `std::pop_heap`-style sift-down inside the
prefix of length `n` (spec §4.4: "sift-down into a trailing position"),
with explicit fuel; `n` steps always suffice. -/
def siftDownF [Inhabited α] (cmp : α → α → Bool) :
    Nat → List α → Nat → Nat → List α
  | 0, l, _, _ => l
  | fuel + 1, l, i, n =>
    if 2 * i + 1 < n ∧ cmp (geth l i) (geth l (2 * i + 1)) then
      if 2 * i + 2 < n ∧ cmp (geth l (2 * i + 1)) (geth l (2 * i + 2)) then
        siftDownF cmp fuel (lswap l i (2 * i + 2)) (2 * i + 2) n
      else
        siftDownF cmp fuel (lswap l i (2 * i + 1)) (2 * i + 1) n
    else
      if 2 * i + 2 < n ∧ cmp (geth l i) (geth l (2 * i + 2)) then
        siftDownF cmp fuel (lswap l i (2 * i + 2)) (2 * i + 2) n
      else
        l

/-- Modelled from the spec: `std::pop_heap` — move the root to the last
position and restore the heap on the remaining prefix. -/
def popHeap [Inhabited α] (cmp : α → α → Bool) (l : List α) : List α :=
  if l.length ≤ 1 then l
  else siftDownF cmp l.length (lswap l 0 (l.length - 1)) 0 (l.length - 1)

/-- Modelled from the spec: `std::make_heap` (spec §4.4 "heapify the
sequence", §9 "a standard binary heap exposing make/push/pop
primitives"), realised as iterated sift-up insertion. -/
def makeHeap [Inhabited α] (cmp : α → α → Bool) (l : List α) : List α :=
  l.foldl (fun h x => pushHeap cmp (h ++ [x])) []

/-- The zero-based binary max-heap condition under a comparator: no
parent compares strictly lower than a child. -/
def isHeap [Inhabited α] (cmp : α → α → Bool) (l : List α) : Bool :=
  (List.range l.length).all fun j =>
    j == 0 || !cmp (geth l ((j - 1) / 2)) (geth l j)

/-- State of `RasterTilePriorityQueue`: the owned sequence of paired
queues and the policy snapshot taken at `Build`. -/
structure RasterTilePriorityQueue where
  paired_queues : List PairedTilingSetQueue
  tree_priority : TreePriority
deriving DecidableEq, Repr

/-- A freshly constructed `RasterTilePriorityQueue` (the default
constructor leaves the sequence empty; the policy field is only
meaningful after `Build`). -/
def RasterTilePriorityQueue.init : RasterTilePriorityQueue :=
  { paired_queues := [], tree_priority := SAME_PRIORITY_FOR_BOTH_TREES }

/-- `RasterTilePriorityQueue::Build`: record the policy, push one
`PairedTilingSetQueue` per layer pair onto the existing sequence, then
`make_heap` under the comparator. -/
def RasterTilePriorityQueue.Build (s : RasterTilePriorityQueue)
    (paired_layers : List LayerPair) (tree_priority : TreePriority) :
    RasterTilePriorityQueue :=
  let queues := s.paired_queues ++
    paired_layers.map (fun p => mkPairedTilingSetQueue p tree_priority)
  { paired_queues := makeHeap (RasterOrderComparator tree_priority) queues
    tree_priority := tree_priority }

/-- `RasterTilePriorityQueue::Reset`: clear the sequence. -/
def RasterTilePriorityQueue.Reset (s : RasterTilePriorityQueue) :
    RasterTilePriorityQueue :=
  { s with paired_queues := [] }

/-- `RasterTilePriorityQueue::IsEmpty`. -/
def RasterTilePriorityQueue.IsEmpty (s : RasterTilePriorityQueue) : Bool :=
  s.paired_queues.isEmpty || (geth s.paired_queues 0).IsEmpty

/-- `RasterTilePriorityQueue::Top`. -/
def RasterTilePriorityQueue.Top (s : RasterTilePriorityQueue) : Tile :=
  (geth s.paired_queues 0).Top s.tree_priority

/-- `RasterTilePriorityQueue::Pop`: `pop_heap`, mutate the pair now at
the back via its inner `Pop`, then `push_heap`. -/
def RasterTilePriorityQueue.Pop (s : RasterTilePriorityQueue) :
    RasterTilePriorityQueue :=
  let cmp := RasterOrderComparator s.tree_priority
  let q := popHeap cmp s.paired_queues
  let n := q.length
  let q := q.set (n - 1) ((geth q (n - 1)).Pop s.tree_priority)
  { s with paired_queues := pushHeap cmp q }

/-!  ### A lexicographic key for the comparator

The comparator is shown to coincide with the strict order of a
lexicographic key computed from each pair's state.  All order-theoretic
facts about the comparator (irreflexivity, asymmetry, transitivity,
negative transitivity) follow from this single bridge.
-/

/-- The rank the comparator's resolution rule gives a resolution: smaller
is higher priority; `NON_IDEAL_RESOLUTION` is always worst, and low
resolution is preferred exactly when `prioritize_low_res` holds. -/
def resRank (prioritize_low_res : Bool) : TileResolution → Nat
  | LOW_RESOLUTION => if prioritize_low_res then 0 else 1
  | HIGH_RESOLUTION => if prioritize_low_res then 1 else 0
  | NON_IDEAL_RESOLUTION => 2

/-- Whether the smoothness pending-NOW override applies to this tile:
the policy is smoothness, the selected priority's bin is `EVENTUALLY`,
and the tile's pending-tree bin is `NOW`. -/
def pendingNowHot (tree_priority : TreePriority) (t : Tile) : Prop :=
  tree_priority = SMOOTHNESS_TAKES_PRIORITY ∧
    (t.priority_for_tree_priority tree_priority).priority_bin = EVENTUALLY ∧
    (t.priority PENDING_TREE).priority_bin = NOW

instance (tree_priority : TreePriority) (t : Tile) :
    Decidable (pendingNowHot tree_priority t) := by
  unfold pendingNowHot; infer_instance

/-- The key type: empty rank, bin, pending-NOW rank, resolution rank,
distance, compared lexicographically. -/
abbrev CmpKey : Type := Nat ×ₗ (Nat ×ₗ (Nat ×ₗ (Nat ×ₗ ℚ)))

/-- Building a key from its five components. -/
def mkKey (e b pn r : Nat) (d : ℚ) : CmpKey :=
  toLex (e, toLex (b, toLex (pn, toLex (r, d))))

/-- The key of a (selected top) tile under a policy.  A tile the
smoothness pending-NOW override favours compares equal to every other
such tile, so its resolution and distance components are zeroed. -/
def tileKey (tree_priority : TreePriority) (t : Tile) : CmpKey :=
  let p := t.priority_for_tree_priority tree_priority
  if pendingNowHot tree_priority t then
    mkKey 0 (binVal p.priority_bin) 0 0 0
  else
    mkKey 0 (binVal p.priority_bin) 1
      (resRank (decide (tree_priority = SMOOTHNESS_TAKES_PRIORITY))
        p.resolution)
      p.distance_to_visible

/-- The key of a paired queue: empty pairs share a maximal key. -/
def pairKey (tree_priority : TreePriority) (q : PairedTilingSetQueue) :
    CmpKey :=
  if q.IsEmpty then mkKey 1 0 0 0 0
  else tileKey tree_priority (q.Top tree_priority)

theorem mkKey_lt_iff {e1 b1 p1 r1 e2 b2 p2 r2 : Nat} {d1 d2 : ℚ} :
    mkKey e1 b1 p1 r1 d1 < mkKey e2 b2 p2 r2 d2 ↔
      e1 < e2 ∨ (e1 = e2 ∧ (b1 < b2 ∨ (b1 = b2 ∧ (p1 < p2 ∨ (p1 = p2 ∧
        (r1 < r2 ∨ (r1 = r2 ∧ d1 < d2))))))) := by
  simp [mkKey, Prod.Lex.lt_iff]

theorem ResolutionAndDistanceRule_iff (plr : Bool) (pa pb : TilePriority) :
    ResolutionAndDistanceRule plr pa pb = true ↔
      (binVal pb.priority_bin < binVal pa.priority_bin ∨
       (binVal pb.priority_bin = binVal pa.priority_bin ∧
         (resRank plr pb.resolution < resRank plr pa.resolution ∨
          (resRank plr pb.resolution = resRank plr pa.resolution ∧
            pb.distance_to_visible < pa.distance_to_visible)))) := by
  rcases pa with ⟨pab, par, pad⟩
  rcases pb with ⟨pbb, pbr, pbd⟩
  cases plr <;> cases pab <;> cases pbb <;> cases par <;> cases pbr <;>
    simp [ResolutionAndDistanceRule, TilePriority.IsHigherPriorityThan,
      binVal, resRank]

theorem TileCompare_iff (tp : TreePriority) (ta tb : Tile) :
    TileCompare tp ta tb = true ↔ tileKey tp tb < tileKey tp ta := by
  cases tp with
  | NEW_CONTENT_TAKES_PRIORITY =>
    simp [TileCompare, tileKey, pendingNowHot, mkKey_lt_iff,
      ResolutionAndDistanceRule_iff]
  | SAME_PRIORITY_FOR_BOTH_TREES =>
    simp [TileCompare, tileKey, pendingNowHot, mkKey_lt_iff,
      ResolutionAndDistanceRule_iff]
  | SMOOTHNESS_TAKES_PRIORITY =>
    rcases ta with ⟨⟨tab, tar, tad⟩, ⟨tpb, tpr, tpd⟩, tsh⟩
    rcases tb with ⟨⟨ubb, ubr, ubd⟩, ⟨upb, upr, upd⟩, ush⟩
    cases tab <;> cases ubb <;> cases tpb <;> cases upb <;>
      simp [TileCompare, tileKey, pendingNowHot, Tile.priority,
        Tile.priority_for_tree_priority, mkKey_lt_iff,
        ResolutionAndDistanceRule_iff, binVal, resRank]

theorem tileKey_lt_emptyKey (tp : TreePriority) (t : Tile) :
    tileKey tp t < mkKey 1 0 0 0 0 := by
  unfold tileKey
  split <;> simp [mkKey_lt_iff]

theorem not_emptyKey_lt_tileKey (tp : TreePriority) (t : Tile) :
    ¬ mkKey 1 0 0 0 0 < tileKey tp t := by
  unfold tileKey
  split <;> simp [mkKey_lt_iff]

/-- The comparator coincides with the strict lexicographic order of the
pair keys (with the arguments flipped: `a` is lower than `b` iff `b`'s
key is smaller). -/
theorem RasterOrderComparator_iff (tp : TreePriority)
    (a b : PairedTilingSetQueue) :
    RasterOrderComparator tp a b = true ↔ pairKey tp b < pairKey tp a := by
  unfold RasterOrderComparator pairKey
  by_cases hae : a.IsEmpty <;> by_cases hbe : b.IsEmpty <;>
    simp [hae, hbe, TileCompare_iff, tileKey_lt_emptyKey,
      not_emptyKey_lt_tileKey]

theorem RasterOrderComparator_irrefl (tp : TreePriority)
    (a : PairedTilingSetQueue) : RasterOrderComparator tp a a = false := by
  rw [Bool.eq_false_iff]
  intro h
  exact absurd ((RasterOrderComparator_iff tp a a).1 h) (lt_irrefl _)

theorem RasterOrderComparator_asymm (tp : TreePriority)
    (a b : PairedTilingSetQueue) (h : RasterOrderComparator tp a b = true) :
    RasterOrderComparator tp b a = false := by
  rw [Bool.eq_false_iff]
  intro h'
  exact absurd ((RasterOrderComparator_iff tp a b).1 h)
    (not_lt.2 (le_of_lt ((RasterOrderComparator_iff tp b a).1 h')))

theorem RasterOrderComparator_trans (tp : TreePriority)
    (a b c : PairedTilingSetQueue)
    (hab : RasterOrderComparator tp a b = true)
    (hbc : RasterOrderComparator tp b c = true) :
    RasterOrderComparator tp a c = true :=
  (RasterOrderComparator_iff tp a c).2
    (lt_trans ((RasterOrderComparator_iff tp b c).1 hbc)
      ((RasterOrderComparator_iff tp a b).1 hab))

theorem RasterOrderComparator_negtrans (tp : TreePriority)
    (a b c : PairedTilingSetQueue)
    (hab : RasterOrderComparator tp a b = false)
    (hbc : RasterOrderComparator tp b c = false) :
    RasterOrderComparator tp a c = false := by
  rw [Bool.eq_false_iff] at hab hbc ⊢
  intro h
  rcases lt_or_le (pairKey tp b) (pairKey tp a) with hba | hab'
  · exact hab ((RasterOrderComparator_iff tp a b).2 hba)
  · exact hbc ((RasterOrderComparator_iff tp b c).2
      (lt_of_lt_of_le ((RasterOrderComparator_iff tp a c).1 h) hab'))

/-!  ### Concrete states used by witnesses and counterexamples -/

/-- A one-tile, active-only paired queue. -/
def pairOfTile (t : Tile) : PairedTilingSetQueue :=
  { active_queue := some [t], pending_queue := none, has_both_layers := false }

/-- `EVENTUALLY`/low-res/distance 5 on the active tree, pending-`NOW`. -/
def tileLowPendingNow : Tile :=
  { active_priority :=
      { priority_bin := EVENTUALLY, resolution := LOW_RESOLUTION,
        distance_to_visible := 5 }
    pending_priority :=
      { priority_bin := NOW, resolution := HIGH_RESOLUTION,
        distance_to_visible := 0 }
    shared := false }

/-- `EVENTUALLY`/high-res/distance 1 on the active tree, pending-`NOW`. -/
def tileHighPendingNow : Tile :=
  { active_priority :=
      { priority_bin := EVENTUALLY, resolution := HIGH_RESOLUTION,
        distance_to_visible := 1 }
    pending_priority :=
      { priority_bin := NOW, resolution := HIGH_RESOLUTION,
        distance_to_visible := 0 }
    shared := false }

/-- `EVENTUALLY`/non-ideal/distance 0 on the active tree, pending-`NOW`. -/
def tileNonIdealPendingNow : Tile :=
  { active_priority :=
      { priority_bin := EVENTUALLY, resolution := NON_IDEAL_RESOLUTION,
        distance_to_visible := 0 }
    pending_priority :=
      { priority_bin := NOW, resolution := HIGH_RESOLUTION,
        distance_to_visible := 0 }
    shared := false }

/-- `EVENTUALLY`/high-res/distance 100 on the active tree, pending-`SOON`. -/
def tileHighPendingSoon : Tile :=
  { active_priority :=
      { priority_bin := EVENTUALLY, resolution := HIGH_RESOLUTION,
        distance_to_visible := 100 }
    pending_priority :=
      { priority_bin := SOON, resolution := HIGH_RESOLUTION,
        distance_to_visible := 0 }
    shared := false }

/-- `NOW`/high-res/distance 1 on both trees, not shared. -/
def tileNowHigh : Tile :=
  { active_priority :=
      { priority_bin := NOW, resolution := HIGH_RESOLUTION,
        distance_to_visible := 1 }
    pending_priority :=
      { priority_bin := NOW, resolution := HIGH_RESOLUTION,
        distance_to_visible := 1 }
    shared := false }

/-- `SOON`/high-res/distance 2 on both trees, not shared. -/
def tileSoonHigh : Tile :=
  { active_priority :=
      { priority_bin := SOON, resolution := HIGH_RESOLUTION,
        distance_to_visible := 2 }
    pending_priority :=
      { priority_bin := SOON, resolution := HIGH_RESOLUTION,
        distance_to_visible := 2 }
    shared := false }

/-- An entirely absent pair (both layers missing). -/
def pairAbsent : PairedTilingSetQueue :=
  { active_queue := none, pending_queue := none, has_both_layers := false }

/-!  ### Claims about the comparator -/

/-- C5: if exactly one of `a`, `b` is empty, the empty one compares
strictly lower; if both are empty, the comparator returns false in both
directions, so an empty pair never compares higher than, nor above-and-
equal to, a non-empty one. -/
theorem C5_empty_dominance (tp : TreePriority) (a b : PairedTilingSetQueue) :
    (a.IsEmpty = true → b.IsEmpty = false →
      RasterOrderComparator tp a b = true ∧
        RasterOrderComparator tp b a = false) ∧
    (a.IsEmpty = true → b.IsEmpty = true →
      RasterOrderComparator tp a b = false ∧
        RasterOrderComparator tp b a = false) := by
  constructor
  · intro ha hb
    simp [RasterOrderComparator, ha, hb]
  · intro ha hb
    simp [RasterOrderComparator, ha, hb]

theorem C5_empty_dominance_witness :
    RasterOrderComparator SAME_PRIORITY_FOR_BOTH_TREES pairAbsent
        (pairOfTile tileNowHigh) = true ∧
      RasterOrderComparator SAME_PRIORITY_FOR_BOTH_TREES
        (pairOfTile tileNowHigh) pairAbsent = false :=
  (C5_empty_dominance SAME_PRIORITY_FOR_BOTH_TREES pairAbsent
    (pairOfTile tileNowHigh)).1 (by decide) (by decide)

/-- C6: for every policy, the relation computed by the comparator on
fixed pair states is irreflexive, asymmetric, and transitive. -/
theorem C6_strict_weak_order (tp : TreePriority) :
    (∀ a : PairedTilingSetQueue, RasterOrderComparator tp a a = false) ∧
    (∀ a b : PairedTilingSetQueue, RasterOrderComparator tp a b = true →
      RasterOrderComparator tp b a = false) ∧
    (∀ a b c : PairedTilingSetQueue, RasterOrderComparator tp a b = true →
      RasterOrderComparator tp b c = true →
      RasterOrderComparator tp a c = true) :=
  ⟨fun a => RasterOrderComparator_irrefl tp a,
   fun a b h => RasterOrderComparator_asymm tp a b h,
   fun a b c hab hbc => RasterOrderComparator_trans tp a b c hab hbc⟩

theorem C6_strict_weak_order_witness :
    RasterOrderComparator SAME_PRIORITY_FOR_BOTH_TREES
      (pairOfTile tileNowHigh) pairAbsent = false :=
  (C6_strict_weak_order SAME_PRIORITY_FOR_BOTH_TREES).2.1 pairAbsent
    (pairOfTile tileNowHigh) (by decide)

/-- The policy-selected priority of a pair's current top tile — the
`a_priority` local of the comparator. -/
def selPriority (tree_priority : TreePriority) (q : PairedTilingSetQueue) :
    TilePriority :=
  (q.Top tree_priority).priority_for_tree_priority tree_priority

/-- The `a_is_pending_now` test of the comparator, applied to a pair's
current top tile. -/
def isPendingNow (tree_priority : TreePriority)
    (q : PairedTilingSetQueue) : Prop :=
  ((q.Top tree_priority).priority PENDING_TREE).priority_bin = NOW

instance (tree_priority : TreePriority) (q : PairedTilingSetQueue) :
    Decidable (isPendingNow tree_priority q) := by
  unfold isPendingNow; infer_instance

/-- When the smoothness pending-NOW override does not decide, the
comparator body is exactly the resolution/fallback rule. -/
theorem TileCompare_eq_rule (tp : TreePriority) (ta tb : Tile)
    (h : ¬(tp = SMOOTHNESS_TAKES_PRIORITY ∧
      (ta.priority_for_tree_priority tp).priority_bin = EVENTUALLY ∧
      (tb.priority_for_tree_priority tp).priority_bin = EVENTUALLY ∧
      ((ta.priority PENDING_TREE).priority_bin = NOW ∨
        (tb.priority PENDING_TREE).priority_bin = NOW))) :
    TileCompare tp ta tb =
      ResolutionAndDistanceRule (decide (tp = SMOOTHNESS_TAKES_PRIORITY))
        (ta.priority_for_tree_priority tp)
        (tb.priority_for_tree_priority tp) := by
  unfold TileCompare
  by_cases hs : tp = SMOOTHNESS_TAKES_PRIORITY
  · subst hs
    by_cases hae : (ta.priority_for_tree_priority
        SMOOTHNESS_TAKES_PRIORITY).priority_bin = EVENTUALLY
    · by_cases hbe : (tb.priority_for_tree_priority
          SMOOTHNESS_TAKES_PRIORITY).priority_bin = EVENTUALLY
      · by_cases hap : (ta.priority PENDING_TREE).priority_bin = NOW
        · exact absurd ⟨rfl, hae, hbe, Or.inl hap⟩ h
        · by_cases hbp : (tb.priority PENDING_TREE).priority_bin = NOW
          · exact absurd ⟨rfl, hae, hbe, Or.inr hbp⟩ h
          · simp [hae, hbe, hap, hbp]
      · simp [hae, hbe]
    · simp [hae]
  · simp [hs]

/-- C1 (amended): under `SMOOTHNESS_TAKES_PRIORITY` with both selected
bins `EVENTUALLY`: if exactly one tile is pending-`NOW`, that tile
compares strictly higher; if neither is, the comparison falls through to
the resolution rule and the `IsHigherPriorityThan` fallback; if both
are pending-`NOW`, the pending-NOW check itself makes the two pairs
compare equivalent (false in both directions), without falling
through. -/
theorem C1_smoothness_pending_now (a b : PairedTilingSetQueue)
    (ha : a.IsEmpty = false) (hb : b.IsEmpty = false)
    (hae : (selPriority SMOOTHNESS_TAKES_PRIORITY a).priority_bin =
      EVENTUALLY)
    (hbe : (selPriority SMOOTHNESS_TAKES_PRIORITY b).priority_bin =
      EVENTUALLY) :
    (isPendingNow SMOOTHNESS_TAKES_PRIORITY a →
      ¬ isPendingNow SMOOTHNESS_TAKES_PRIORITY b →
      RasterOrderComparator SMOOTHNESS_TAKES_PRIORITY a b = false ∧
        RasterOrderComparator SMOOTHNESS_TAKES_PRIORITY b a = true) ∧
    (¬ isPendingNow SMOOTHNESS_TAKES_PRIORITY a →
      isPendingNow SMOOTHNESS_TAKES_PRIORITY b →
      RasterOrderComparator SMOOTHNESS_TAKES_PRIORITY a b = true ∧
        RasterOrderComparator SMOOTHNESS_TAKES_PRIORITY b a = false) ∧
    (¬ isPendingNow SMOOTHNESS_TAKES_PRIORITY a →
      ¬ isPendingNow SMOOTHNESS_TAKES_PRIORITY b →
      RasterOrderComparator SMOOTHNESS_TAKES_PRIORITY a b =
        ResolutionAndDistanceRule true
          (selPriority SMOOTHNESS_TAKES_PRIORITY a)
          (selPriority SMOOTHNESS_TAKES_PRIORITY b)) ∧
    (isPendingNow SMOOTHNESS_TAKES_PRIORITY a →
      isPendingNow SMOOTHNESS_TAKES_PRIORITY b →
      RasterOrderComparator SMOOTHNESS_TAKES_PRIORITY a b = false ∧
        RasterOrderComparator SMOOTHNESS_TAKES_PRIORITY b a = false) := by
  unfold isPendingNow at *
  unfold selPriority at *
  refine ⟨?_, ?_, ?_, ?_⟩ <;> intro hap hbp <;>
    simp [RasterOrderComparator, TileCompare, ha, hb, hae, hbe, hap, hbp]

/-- C1 (counterexample): two non-empty pairs under smoothness, both
selected bins `EVENTUALLY`, both top tiles pending-`NOW`; the claim says
the comparison falls through to the resolution rule, but the comparator
returns false while the fall-through rule returns true. -/
theorem C1_counterexample :
    (pairOfTile tileHighPendingNow).IsEmpty = false ∧
    (pairOfTile tileLowPendingNow).IsEmpty = false ∧
    (selPriority SMOOTHNESS_TAKES_PRIORITY
      (pairOfTile tileHighPendingNow)).priority_bin = EVENTUALLY ∧
    (selPriority SMOOTHNESS_TAKES_PRIORITY
      (pairOfTile tileLowPendingNow)).priority_bin = EVENTUALLY ∧
    isPendingNow SMOOTHNESS_TAKES_PRIORITY (pairOfTile tileHighPendingNow) ∧
    isPendingNow SMOOTHNESS_TAKES_PRIORITY (pairOfTile tileLowPendingNow) ∧
    RasterOrderComparator SMOOTHNESS_TAKES_PRIORITY
      (pairOfTile tileHighPendingNow) (pairOfTile tileLowPendingNow) =
      false ∧
    ResolutionAndDistanceRule true
      (selPriority SMOOTHNESS_TAKES_PRIORITY (pairOfTile tileHighPendingNow))
      (selPriority SMOOTHNESS_TAKES_PRIORITY (pairOfTile tileLowPendingNow)) =
      true := by
  decide

theorem C1_smoothness_pending_now_witness :
    RasterOrderComparator SMOOTHNESS_TAKES_PRIORITY
      (pairOfTile tileLowPendingNow) (pairOfTile tileHighPendingNow) =
        false ∧
      RasterOrderComparator SMOOTHNESS_TAKES_PRIORITY
        (pairOfTile tileHighPendingNow) (pairOfTile tileLowPendingNow) =
        false :=
  (C1_smoothness_pending_now (pairOfTile tileLowPendingNow)
    (pairOfTile tileHighPendingNow) (by decide) (by decide) (by decide)
    (by decide)).2.2.2 (by decide) (by decide)

/-- C3: `HigherPriorityTree` implements the policy table:
`NEW_CONTENT_TAKES_PRIORITY` always prefers the pending tree;
`SAME_PRIORITY_FOR_BOTH_TREES` prefers the active tree exactly when the
active priority is strictly higher, ties going to pending;
`SMOOTHNESS_TAKES_PRIORITY` prefers the active tree except when the
active bin is `EVENTUALLY` and the pending bin is `NOW`; and a supplied
shared tile replaces both iterator tops, making the result independent
of the queues. -/
theorem C3_higher_priority_tree (aq pq : Option (List Tile))
    (st : Option Tile) :
    HigherPriorityTree NEW_CONTENT_TAKES_PRIORITY aq pq st =
      PENDING_TREE ∧
    (HigherPriorityTree SAME_PRIORITY_FOR_BOTH_TREES aq pq st =
        ACTIVE_TREE ↔
      ((st.getD (queueTop aq)).priority ACTIVE_TREE).IsHigherPriorityThan
        ((st.getD (queueTop pq)).priority PENDING_TREE) = true) ∧
    (HigherPriorityTree SMOOTHNESS_TAKES_PRIORITY aq pq st =
        PENDING_TREE ↔
      (((st.getD (queueTop aq)).priority ACTIVE_TREE).priority_bin =
          EVENTUALLY ∧
        ((st.getD (queueTop pq)).priority PENDING_TREE).priority_bin =
          NOW)) ∧
    (∀ (tp : TreePriority) (t : Tile) (aq2 pq2 : Option (List Tile)),
      HigherPriorityTree tp aq pq (some t) =
        HigherPriorityTree tp aq2 pq2 (some t)) := by
  refine ⟨?_, ?_, ?_, ?_⟩
  · simp [HigherPriorityTree]
  · unfold HigherPriorityTree
    split <;> simp_all
  · unfold HigherPriorityTree
    split <;> simp_all
  · intro tp t aq2 pq2
    cases tp <;> simp [HigherPriorityTree]

/-- C4 (amended): on two non-empty pairs with equal selected bins and
different resolutions, provided the smoothness pending-NOW override does
not apply: a `NON_IDEAL_RESOLUTION` tile compares strictly lower than
the other regardless of distance; otherwise `LOW_RESOLUTION` wins under
smoothness and `HIGH_RESOLUTION` under every other policy. -/
theorem C4_resolution_rule (tp : TreePriority) (a b : PairedTilingSetQueue)
    (ha : a.IsEmpty = false) (hb : b.IsEmpty = false)
    (hbin : (selPriority tp a).priority_bin =
      (selPriority tp b).priority_bin)
    (hres : (selPriority tp a).resolution ≠ (selPriority tp b).resolution)
    (hno : ¬(tp = SMOOTHNESS_TAKES_PRIORITY ∧
      (selPriority tp a).priority_bin = EVENTUALLY ∧
      (isPendingNow tp a ∨ isPendingNow tp b))) :
    ((selPriority tp a).resolution = NON_IDEAL_RESOLUTION →
      RasterOrderComparator tp a b = true ∧
        RasterOrderComparator tp b a = false) ∧
    ((selPriority tp b).resolution = NON_IDEAL_RESOLUTION →
      RasterOrderComparator tp a b = false ∧
        RasterOrderComparator tp b a = true) ∧
    ((selPriority tp a).resolution ≠ NON_IDEAL_RESOLUTION →
      (selPriority tp b).resolution ≠ NON_IDEAL_RESOLUTION →
      (tp = SMOOTHNESS_TAKES_PRIORITY →
        (RasterOrderComparator tp a b = true ↔
          (selPriority tp b).resolution = LOW_RESOLUTION)) ∧
      (tp ≠ SMOOTHNESS_TAKES_PRIORITY →
        (RasterOrderComparator tp a b = true ↔
          (selPriority tp b).resolution = HIGH_RESOLUTION))) := by
  have hcab : RasterOrderComparator tp a b =
      ResolutionAndDistanceRule (decide (tp = SMOOTHNESS_TAKES_PRIORITY))
        (selPriority tp a) (selPriority tp b) := by
    have h1 : ¬(tp = SMOOTHNESS_TAKES_PRIORITY ∧
        ((a.Top tp).priority_for_tree_priority tp).priority_bin =
          EVENTUALLY ∧
        ((b.Top tp).priority_for_tree_priority tp).priority_bin =
          EVENTUALLY ∧
        (((a.Top tp).priority PENDING_TREE).priority_bin = NOW ∨
          ((b.Top tp).priority PENDING_TREE).priority_bin = NOW)) := by
      intro hcon
      exact hno ⟨hcon.1, hcon.2.1, hcon.2.2.2⟩
    simp [RasterOrderComparator, ha, hb, TileCompare_eq_rule tp _ _ h1,
      selPriority]
  have hcba : RasterOrderComparator tp b a =
      ResolutionAndDistanceRule (decide (tp = SMOOTHNESS_TAKES_PRIORITY))
        (selPriority tp b) (selPriority tp a) := by
    have h1 : ¬(tp = SMOOTHNESS_TAKES_PRIORITY ∧
        ((b.Top tp).priority_for_tree_priority tp).priority_bin =
          EVENTUALLY ∧
        ((a.Top tp).priority_for_tree_priority tp).priority_bin =
          EVENTUALLY ∧
        (((b.Top tp).priority PENDING_TREE).priority_bin = NOW ∨
          ((a.Top tp).priority PENDING_TREE).priority_bin = NOW)) := by
      intro hcon
      exact hno ⟨hcon.1, hbin ▸ hcon.2.1, hcon.2.2.2.symm⟩
    simp [RasterOrderComparator, ha, hb, TileCompare_eq_rule tp _ _ h1,
      selPriority]
  rw [hcab, hcba]
  rcases hpa : selPriority tp a with ⟨pab, par, pad⟩
  rcases hpb : selPriority tp b with ⟨pbb, pbr, pbd⟩
  rw [hpa, hpb] at hbin hres
  simp only at hbin hres ⊢
  subst hbin
  cases htp : decide (tp = SMOOTHNESS_TAKES_PRIORITY) <;>
    cases par <;> cases pbr <;>
      simp_all [ResolutionAndDistanceRule,
        TilePriority.IsHigherPriorityThan, decide_eq_true_eq,
        decide_eq_false_iff_not]

/-- C4 (counterexample): under smoothness, equal `EVENTUALLY` bins and
differing resolutions, a `NON_IDEAL_RESOLUTION` tile whose pending bin
is `NOW` compares strictly *higher* than a `HIGH_RESOLUTION` tile at a
larger distance whose pending bin is `SOON` — the pending-NOW override
runs before the resolution rule, refuting "always loses regardless of
distance and policy". -/
theorem C4_counterexample :
    (pairOfTile tileNonIdealPendingNow).IsEmpty = false ∧
    (pairOfTile tileHighPendingSoon).IsEmpty = false ∧
    (selPriority SMOOTHNESS_TAKES_PRIORITY
        (pairOfTile tileNonIdealPendingNow)).priority_bin =
      (selPriority SMOOTHNESS_TAKES_PRIORITY
        (pairOfTile tileHighPendingSoon)).priority_bin ∧
    (selPriority SMOOTHNESS_TAKES_PRIORITY
        (pairOfTile tileNonIdealPendingNow)).resolution =
      NON_IDEAL_RESOLUTION ∧
    (selPriority SMOOTHNESS_TAKES_PRIORITY
        (pairOfTile tileHighPendingSoon)).resolution = HIGH_RESOLUTION ∧
    RasterOrderComparator SMOOTHNESS_TAKES_PRIORITY
      (pairOfTile tileNonIdealPendingNow)
      (pairOfTile tileHighPendingSoon) = false ∧
    RasterOrderComparator SMOOTHNESS_TAKES_PRIORITY
      (pairOfTile tileHighPendingSoon)
      (pairOfTile tileNonIdealPendingNow) = true := by
  decide

theorem C4_resolution_rule_witness :
    RasterOrderComparator SAME_PRIORITY_FOR_BOTH_TREES
      (pairOfTile tileNonIdealPendingNow)
      (pairOfTile tileHighPendingSoon) = true ∧
    RasterOrderComparator SAME_PRIORITY_FOR_BOTH_TREES
      (pairOfTile tileHighPendingSoon)
      (pairOfTile tileNonIdealPendingNow) = false :=
  (C4_resolution_rule SAME_PRIORITY_FOR_BOTH_TREES
    (pairOfTile tileNonIdealPendingNow) (pairOfTile tileHighPendingSoon)
    (by decide) (by decide) (by decide) (by decide) (by decide)).1
    (by decide)

/-!  ### Heap lemmas

Correctness of the modelled `std` heap primitives: they permute the
sequence, and they establish or preserve the binary-heap condition for
any comparator that is asymmetric, transitive, and negatively
transitive — which the bridge supplies for `RasterOrderComparator`.
-/

section HeapLemmas

variable {α : Type} [Inhabited α]

theorem length_lswap (l : List α) (i j : Nat) :
    (lswap l i j).length = l.length := by
  simp [lswap]

theorem geth_lswap_fst (l : List α) {i j : Nat} (hij : i ≠ j)
    (hi : i < l.length) : geth (lswap l i j) i = geth l j := by
  unfold lswap geth
  rw [List.getD_eq_getElem?_getD, List.getElem?_set_ne hij.symm,
    List.getElem?_set_eq_of_lt _ hi, List.getD_eq_getElem?_getD]
  simp

theorem geth_lswap_snd (l : List α) {i j : Nat} (hj : j < l.length) :
    geth (lswap l i j) j = geth l i := by
  unfold lswap geth
  have hj' : j < (l.set i (l.getD j default)).length := by simpa using hj
  rw [List.getD_eq_getElem?_getD, List.getElem?_set_eq_of_lt _ hj']
  simp

theorem geth_lswap_other (l : List α) {i j k : Nat} (hki : i ≠ k)
    (hkj : j ≠ k) : geth (lswap l i j) k = geth l k := by
  unfold lswap geth
  rw [List.getD_eq_getElem?_getD, List.getElem?_set_ne hkj,
    List.getElem?_set_ne hki, List.getD_eq_getElem?_getD]

theorem set_cons_perm (a : α) :
    ∀ (t : List α) (m : Nat), m < t.length →
      List.Perm (geth t m :: t.set m a) (a :: t)
  | b :: s, 0, _ => by
    simpa [geth] using List.Perm.swap a b s
  | b :: s, m + 1, hm => by
    have hms : m < s.length := by simpa using hm
    have ih := set_cons_perm a s m hms
    have h1 : geth (b :: s) (m + 1) :: (b :: s).set (m + 1) a =
        geth s m :: b :: s.set m a := by simp [geth]
    rw [h1]
    exact (List.Perm.swap b (geth s m) (s.set m a)).trans
      ((List.Perm.cons b ih).trans (List.Perm.swap a b s))

theorem lswap_perm :
    ∀ (l : List α) (i j : Nat), i < l.length → j < l.length →
      List.Perm (lswap l i j) l
  | l, 0, 0, hi, _ => by
    rcases l with _ | ⟨a, t⟩
    · simp at hi
    · simp [lswap, geth]
  | a :: t, 0, j + 1, _, hj => by
    have hjt : j < t.length := by simpa using hj
    have h1 : lswap (a :: t) 0 (j + 1) = geth t j :: t.set j a := by
      simp [lswap, geth]
    rw [h1]
    exact set_cons_perm a t j hjt
  | a :: t, i + 1, 0, hi, _ => by
    have hit : i < t.length := by simpa using hi
    have h1 : lswap (a :: t) (i + 1) 0 = geth t i :: t.set i a := by
      simp [lswap, geth]
    rw [h1]
    exact set_cons_perm a t i hit
  | a :: t, i + 1, j + 1, hi, hj => by
    have hit : i < t.length := by simpa using hi
    have hjt : j < t.length := by simpa using hj
    have h1 : lswap (a :: t) (i + 1) (j + 1) = a :: lswap t i j := by
      simp [lswap, geth]
    rw [h1]
    exact List.Perm.cons a (lswap_perm t i j hit hjt)

theorem parent_lt {j : Nat} (h0 : j ≠ 0) : (j - 1) / 2 < j :=
  Nat.lt_of_le_of_lt (Nat.div_le_self _ _)
    (Nat.sub_lt (Nat.pos_of_ne_zero h0) Nat.one_pos)

theorem siftUpF_perm (cmp : α → α → Bool) :
    ∀ (fuel : Nat) (l : List α) (j : Nat), j < l.length →
      List.Perm (siftUpF cmp fuel l j) l
  | 0, l, _, _ => List.Perm.refl l
  | fuel + 1, l, j, hj => by
    unfold siftUpF
    by_cases h0 : j = 0
    · simp [h0]
    · rw [if_neg h0]
      by_cases hc : cmp (geth l ((j - 1) / 2)) (geth l j) = true
      · rw [if_pos hc]
        have hp : (j - 1) / 2 < l.length := lt_trans (parent_lt h0) hj
        have hlen : (lswap l ((j - 1) / 2) j).length = l.length :=
          length_lswap l _ j
        exact (siftUpF_perm cmp fuel (lswap l ((j - 1) / 2) j) _
          (hlen ▸ hp)).trans (lswap_perm l _ j hp hj)
      · rw [if_neg hc]

theorem pushHeap_perm (cmp : α → α → Bool) (l : List α) :
    List.Perm (pushHeap cmp l) l := by
  rcases l with _ | ⟨a, t⟩
  · simp [pushHeap, siftUpF]
  · exact siftUpF_perm cmp _ _ _
      (Nat.sub_lt (by simp) Nat.one_pos)

theorem makeHeap_perm (cmp : α → α → Bool) (l : List α) :
    List.Perm (makeHeap cmp l) l := by
  suffices h : ∀ (l acc : List α),
      List.Perm (l.foldl (fun h x => pushHeap cmp (h ++ [x])) acc)
        (acc ++ l) by
    simpa using h l []
  intro l
  induction l with
  | nil => intro acc; simp
  | cons x xs ih =>
    intro acc
    have h1 : (x :: xs).foldl (fun h x => pushHeap cmp (h ++ [x])) acc =
        xs.foldl (fun h x => pushHeap cmp (h ++ [x]))
          (pushHeap cmp (acc ++ [x])) := by simp
    rw [h1]
    refine (ih _).trans ?_
    have h2 := (pushHeap_perm cmp (acc ++ [x])).append_right xs
    simpa using h2

/-- The binary-heap condition restricted to the prefix of length `n`. -/
def IsHeapUpTo (cmp : α → α → Bool) (l : List α) (n : Nat) : Prop :=
  ∀ k, 0 < k → k < n → cmp (geth l ((k - 1) / 2)) (geth l k) = false

/-- The binary-heap condition on the whole sequence. -/
def IsHeapP (cmp : α → α → Bool) (l : List α) : Prop :=
  IsHeapUpTo cmp l l.length

theorem isHeap_iff (cmp : α → α → Bool) (l : List α) :
    isHeap cmp l = true ↔ IsHeapP cmp l := by
  unfold isHeap IsHeapP IsHeapUpTo
  rw [List.all_eq_true]
  constructor
  · intro h k hk0 hklen
    have h2 := h k (List.mem_range.2 hklen)
    simp only [Bool.or_eq_true, beq_iff_eq, Bool.not_eq_true'] at h2
    rcases h2 with h2 | h2
    · omega
    · exact h2
  · intro h k hk
    have hklen := List.mem_range.1 hk
    by_cases h0 : k = 0
    · simp [h0]
    · simp only [Bool.or_eq_true, beq_iff_eq, Bool.not_eq_true']
      exact Or.inr (h k (Nat.pos_of_ne_zero h0) hklen)

theorem geth_set_ne (l : List α) {m k : Nat} (h : m ≠ k) (x : α) :
    geth (l.set m x) k = geth l k := by
  unfold geth
  rw [List.getD_eq_getElem?_getD, List.getElem?_set_ne h,
    List.getD_eq_getElem?_getD]

theorem geth_append_lt (l1 l2 : List α) {k : Nat} (h : k < l1.length) :
    geth (l1 ++ l2) k = geth l1 k := by
  unfold geth
  rw [List.getD_eq_getElem?_getD, List.getElem?_append_left h,
    List.getD_eq_getElem?_getD]

theorem siftUpF_heapAux (cmp : α → α → Bool)
    (hasym : ∀ x y : α, cmp x y = true → cmp y x = false)
    (htrans : ∀ x y z : α, cmp x y = true → cmp y z = true →
      cmp x z = true)
    (hneg : ∀ x y z : α, cmp x y = false → cmp y z = false →
      cmp x z = false) :
    ∀ (fuel : Nat) (l : List α) (j : Nat), j ≤ fuel → j < l.length →
      (∀ k, 0 < k → k < l.length → k ≠ j →
        cmp (geth l ((k - 1) / 2)) (geth l k) = false) →
      (0 < j → ∀ c, 0 < c → c < l.length → (c - 1) / 2 = j →
        cmp (geth l ((j - 1) / 2)) (geth l c) = false) →
      IsHeapP cmp (siftUpF cmp fuel l j)
  | 0, l, j, hfuel, _, hexc, _ => by
    have h0 : j = 0 := Nat.le_zero.1 hfuel
    show IsHeapP cmp l
    intro k hk0 hklen
    exact hexc k hk0 hklen (by omega)
  | fuel + 1, l, j, hfuel, hj, hexc, hguard => by
    unfold siftUpF
    by_cases h0 : j = 0
    · rw [if_pos h0]
      intro k hk0 hklen
      exact hexc k hk0 hklen (by omega)
    · rw [if_neg h0]
      by_cases hc : cmp (geth l ((j - 1) / 2)) (geth l j) = true
      · rw [if_pos hc]
        have hpj : (j - 1) / 2 < j := parent_lt h0
        have hp : (j - 1) / 2 < l.length := lt_trans hpj hj
        have hlen : (lswap l ((j - 1) / 2) j).length = l.length :=
          length_lswap l _ j
        refine siftUpF_heapAux cmp hasym htrans hneg fuel _ _
          (by omega) (by omega) ?_ ?_
        · -- all edges of the swapped list are fine except into the new
          -- hole (j's old parent)
          intro k hk0 hklen' hkp
          rw [hlen] at hklen'
          by_cases hkj : k = j
          · subst hkj
            rw [geth_lswap_fst l (by omega) hp, geth_lswap_snd l hj]
            exact hasym _ _ hc
          · have hgk : geth (lswap l ((j - 1) / 2) j) k = geth l k :=
              geth_lswap_other l (by omega) (by omega)
            by_cases hpk : (k - 1) / 2 = (j - 1) / 2
            · rw [hpk, geth_lswap_fst l (by omega) hp, hgk]
              cases hB : cmp (geth l j) (geth l k) with
              | false => rfl
              | true =>
                exfalso
                have hfalse := hexc k hk0 hklen' hkj
                rw [hpk] at hfalse
                exact absurd (htrans _ _ _ hc hB) (by simp [hfalse])
            · by_cases hpkj : (k - 1) / 2 = j
              · rw [hpkj, geth_lswap_snd l hj, hgk]
                exact hguard (Nat.pos_of_ne_zero h0) k hk0 hklen' hpkj
              · rw [geth_lswap_other l (by omega) (by omega), hgk]
                exact hexc k hk0 hklen' hkj
        · -- the guard at the new hole
          intro hp0 c hc0 hclen' hcp
          rw [hlen] at hclen'
          have hppj : ((j - 1) / 2 - 1) / 2 < (j - 1) / 2 := parent_lt
            (by omega)
          have hgpp : geth (lswap l ((j - 1) / 2) j) (((j - 1) / 2 - 1) / 2)
              = geth l (((j - 1) / 2 - 1) / 2) :=
            geth_lswap_other l (by omega) (by omega)
          rw [hgpp]
          by_cases hcj : c = j
          · subst hcj
            rw [geth_lswap_snd l hj]
            exact hexc _ hp0 hp (by omega)
          · have hcnep : c ≠ (j - 1) / 2 := by omega
            rw [geth_lswap_other l (Ne.symm hcnep) (Ne.symm hcj)]
            refine hneg _ (geth l ((j - 1) / 2)) _
              (hexc _ hp0 hp (by omega)) ?_
            have := hexc c hc0 hclen' hcj
            rwa [hcp] at this
      · rw [if_neg hc]
        intro k hk0 hklen
        by_cases hkj : k = j
        · subst hkj
          exact Bool.eq_false_iff.2 hc
        · exact hexc k hk0 hklen hkj

theorem pushHeap_heap (cmp : α → α → Bool)
    (hasym : ∀ x y : α, cmp x y = true → cmp y x = false)
    (htrans : ∀ x y z : α, cmp x y = true → cmp y z = true →
      cmp x z = true)
    (hneg : ∀ x y z : α, cmp x y = false → cmp y z = false →
      cmp x z = false)
    (l : List α)
    (hpre : ∀ k, 0 < k → k < l.length → k ≠ l.length - 1 →
      cmp (geth l ((k - 1) / 2)) (geth l k) = false) :
    IsHeapP cmp (pushHeap cmp l) := by
  rcases hl : l with _ | ⟨a, t⟩
  · intro k hk0 hklen
    simp [pushHeap, siftUpF] at hklen
  · rw [← hl]
    have hlen : 0 < l.length := by rw [hl]; simp
    refine siftUpF_heapAux cmp hasym htrans hneg l.length l
      (l.length - 1) (by omega) (by omega) hpre ?_
    intro h0 c hc0 hclen hcp
    omega

theorem makeHeap_heap (cmp : α → α → Bool)
    (hasym : ∀ x y : α, cmp x y = true → cmp y x = false)
    (htrans : ∀ x y z : α, cmp x y = true → cmp y z = true →
      cmp x z = true)
    (hneg : ∀ x y z : α, cmp x y = false → cmp y z = false →
      cmp x z = false)
    (l : List α) : IsHeapP cmp (makeHeap cmp l) := by
  suffices h : ∀ (l acc : List α), IsHeapP cmp acc →
      IsHeapP cmp (l.foldl (fun h x => pushHeap cmp (h ++ [x])) acc) by
    refine h l [] ?_
    intro k hk0 hklen
    simp at hklen
  intro l
  induction l with
  | nil => intro acc hacc; simpa using hacc
  | cons x xs ih =>
    intro acc hacc
    have h1 : (x :: xs).foldl (fun h x => pushHeap cmp (h ++ [x])) acc =
        xs.foldl (fun h x => pushHeap cmp (h ++ [x]))
          (pushHeap cmp (acc ++ [x])) := by simp
    rw [h1]
    refine ih _ (pushHeap_heap cmp hasym htrans hneg _ ?_)
    intro k hk0 hklen hkne
    have hlen : (acc ++ [x]).length = acc.length + 1 := by simp
    have hka : k < acc.length := by omega
    have hpa : (k - 1) / 2 < acc.length := by
      have := parent_lt (Nat.pos_iff_ne_zero.1 hk0)
      omega
    rw [geth_append_lt acc [x] hka, geth_append_lt acc [x] hpa]
    exact hacc k hk0 hka

theorem siftDownF_heapAux (cmp : α → α → Bool)
    (hasym : ∀ x y : α, cmp x y = true → cmp y x = false)
    (htrans : ∀ x y z : α, cmp x y = true → cmp y z = true →
      cmp x z = true) :
    ∀ (fuel : Nat) (l : List α) (i n : Nat), n - i ≤ fuel → i < n →
      n ≤ l.length →
      (∀ k, 0 < k → k < n → (k - 1) / 2 ≠ i →
        cmp (geth l ((k - 1) / 2)) (geth l k) = false) →
      (0 < i → ∀ c, c < n → (c - 1) / 2 = i →
        cmp (geth l ((i - 1) / 2)) (geth l c) = false) →
      IsHeapUpTo cmp (siftDownF cmp fuel l i n) n
  | 0, l, i, n, hfuel, hin, _, _, _ => by omega
  | fuel + 1, l, i, n, hfuel, hin, hnlen, hexc, hguard => by
    unfold siftDownF
    -- name the two selection conditions exactly as the code computes them
    by_cases h1 : 2 * i + 1 < n ∧ cmp (geth l i) (geth l (2 * i + 1)) = true
    · rw [if_pos h1]
      by_cases h2 : 2 * i + 2 < n ∧
          cmp (geth l (2 * i + 1)) (geth l (2 * i + 2)) = true
      · rw [if_pos h2]
        -- the hole descends to the right child 2i+2
        have hA : cmp (geth l i) (geth l (2 * i + 2)) = true :=
          htrans _ _ _ h1.2 h2.2
        refine siftDownF_heapAux cmp hasym htrans fuel _ (2 * i + 2) n
          (by omega) (by omega) (by rw [length_lswap]; exact hnlen) ?_ ?_
        · intro k hk0 hkn hkp
          have hilen : i < l.length := by omega
          have hclen : 2 * i + 2 < l.length := by omega
          by_cases hki : k = 2 * i + 2
          · subst hki
            rw [show (2 * i + 2 - 1) / 2 = i by omega,
              geth_lswap_fst l (by omega) hilen, geth_lswap_snd l hclen]
            exact hasym _ _ hA
          · by_cases hks : k = 2 * i + 1
            · subst hks
              rw [show (2 * i + 1 - 1) / 2 = i by omega,
                geth_lswap_fst l (by omega) hilen,
                geth_lswap_other l (by omega) (by omega)]
              exact hasym _ _ h2.2
            · by_cases hkk : k = i
              · have hi0 : 0 < i := hkk ▸ hk0
                rw [hkk, geth_lswap_other l (by omega) (by omega),
                  geth_lswap_fst l (by omega) hilen]
                exact hguard hi0 _ (by omega) (by omega)
              · by_cases hpi : (k - 1) / 2 = i
                · omega
                · rw [geth_lswap_other l (by omega) (by omega),
                    geth_lswap_other l (by omega) (by omega)]
                  exact hexc k hk0 hkn hpi
        · intro _ c hcn hcp
          have hilen : i < l.length := by omega
          rw [show (2 * i + 2 - 1) / 2 = i by omega,
            geth_lswap_fst l (by omega) hilen,
            geth_lswap_other l (by omega) (by omega)]
          have hres := hexc c (by omega) hcn (by omega)
          rwa [hcp] at hres
      · rw [if_neg h2]
        -- the hole descends to the left child 2i+1
        refine siftDownF_heapAux cmp hasym htrans fuel _ (2 * i + 1) n
          (by omega) (by omega) (by rw [length_lswap]; exact hnlen) ?_ ?_
        · intro k hk0 hkn hkp
          have hilen : i < l.length := by omega
          have hclen : 2 * i + 1 < l.length := by omega
          by_cases hki : k = 2 * i + 1
          · subst hki
            rw [show (2 * i + 1 - 1) / 2 = i by omega,
              geth_lswap_fst l (by omega) hilen, geth_lswap_snd l hclen]
            exact hasym _ _ h1.2
          · by_cases hks : k = 2 * i + 2
            · subst hks
              have hrn : 2 * i + 2 < n := hkn
              have hr : cmp (geth l (2 * i + 1)) (geth l (2 * i + 2)) =
                  false := by
                cases hB : cmp (geth l (2 * i + 1)) (geth l (2 * i + 2))
                · rfl
                · exact absurd ⟨hrn, hB⟩ h2
              rw [show (2 * i + 2 - 1) / 2 = i by omega,
                geth_lswap_fst l (by omega) hilen,
                geth_lswap_other l (by omega) (by omega)]
              exact hr
            · by_cases hkk : k = i
              · have hi0 : 0 < i := hkk ▸ hk0
                rw [hkk, geth_lswap_other l (by omega) (by omega),
                  geth_lswap_fst l (by omega) hilen]
                exact hguard hi0 _ (by omega) (by omega)
              · by_cases hpi : (k - 1) / 2 = i
                · omega
                · rw [geth_lswap_other l (by omega) (by omega),
                    geth_lswap_other l (by omega) (by omega)]
                  exact hexc k hk0 hkn hpi
        · intro _ c hcn hcp
          have hilen : i < l.length := by omega
          rw [show (2 * i + 1 - 1) / 2 = i by omega,
            geth_lswap_fst l (by omega) hilen,
            geth_lswap_other l (by omega) (by omega)]
          have hres := hexc c (by omega) hcn (by omega)
          rwa [hcp] at hres
    · rw [if_neg h1]
      by_cases h2 : 2 * i + 2 < n ∧ cmp (geth l i) (geth l (2 * i + 2)) =
          true
      · rw [if_pos h2]
        -- left child not better, right child better: descend right
        refine siftDownF_heapAux cmp hasym htrans fuel _ (2 * i + 2) n
          (by omega) (by omega) (by rw [length_lswap]; exact hnlen) ?_ ?_
        · intro k hk0 hkn hkp
          have hilen : i < l.length := by omega
          have hclen : 2 * i + 2 < l.length := by omega
          by_cases hki : k = 2 * i + 2
          · subst hki
            rw [show (2 * i + 2 - 1) / 2 = i by omega,
              geth_lswap_fst l (by omega) hilen, geth_lswap_snd l hclen]
            exact hasym _ _ h2.2
          · by_cases hks : k = 2 * i + 1
            · subst hks
              have hln : 2 * i + 1 < n := hkn
              have hl1 : cmp (geth l i) (geth l (2 * i + 1)) = false := by
                cases hB : cmp (geth l i) (geth l (2 * i + 1))
                · rfl
                · exact absurd ⟨hln, hB⟩ h1
              have hrl : cmp (geth l (2 * i + 2)) (geth l (2 * i + 1)) =
                  false := by
                cases hB : cmp (geth l (2 * i + 2)) (geth l (2 * i + 1))
                · rfl
                · exact absurd (htrans _ _ _ h2.2 hB) (by simp [hl1])
              rw [show (2 * i + 1 - 1) / 2 = i by omega,
                geth_lswap_fst l (by omega) hilen,
                geth_lswap_other l (by omega) (by omega)]
              exact hrl
            · by_cases hkk : k = i
              · have hi0 : 0 < i := hkk ▸ hk0
                rw [hkk, geth_lswap_other l (by omega) (by omega),
                  geth_lswap_fst l (by omega) hilen]
                exact hguard hi0 _ (by omega) (by omega)
              · by_cases hpi : (k - 1) / 2 = i
                · omega
                · rw [geth_lswap_other l (by omega) (by omega),
                    geth_lswap_other l (by omega) (by omega)]
                  exact hexc k hk0 hkn hpi
        · intro _ c hcn hcp
          have hilen : i < l.length := by omega
          rw [show (2 * i + 2 - 1) / 2 = i by omega,
            geth_lswap_fst l (by omega) hilen,
            geth_lswap_other l (by omega) (by omega)]
          have hres := hexc c (by omega) hcn (by omega)
          rwa [hcp] at hres
      · rw [if_neg h2]
        -- both selection checks failed: already a heap here
        intro k hk0 hkn
        by_cases hpi : (k - 1) / 2 = i
        · have hk12 : k = 2 * i + 1 ∨ k = 2 * i + 2 := by omega
          rcases hk12 with hk1 | hk2
          · subst hk1
            rw [show (2 * i + 1 - 1) / 2 = i by omega]
            cases hB : cmp (geth l i) (geth l (2 * i + 1))
            · rfl
            · exact absurd ⟨hkn, hB⟩ h1
          · subst hk2
            rw [show (2 * i + 2 - 1) / 2 = i by omega]
            cases hB : cmp (geth l i) (geth l (2 * i + 2))
            · rfl
            · exact absurd ⟨hkn, hB⟩ h2
        · exact hexc k hk0 hkn hpi

theorem length_siftDownF (cmp : α → α → Bool) :
    ∀ (fuel : Nat) (l : List α) (i n : Nat),
      (siftDownF cmp fuel l i n).length = l.length
  | 0, _, _, _ => rfl
  | fuel + 1, l, i, n => by
    unfold siftDownF
    split_ifs with h1 h2 h3
    · rw [length_siftDownF cmp fuel, length_lswap]
    · rw [length_siftDownF cmp fuel, length_lswap]
    · rw [length_siftDownF cmp fuel, length_lswap]
    · rfl

theorem length_popHeap (cmp : α → α → Bool) (l : List α) :
    (popHeap cmp l).length = l.length := by
  unfold popHeap
  split_ifs with h
  · rfl
  · rw [length_siftDownF, length_lswap]

theorem popHeap_heap (cmp : α → α → Bool)
    (hasym : ∀ x y : α, cmp x y = true → cmp y x = false)
    (htrans : ∀ x y z : α, cmp x y = true → cmp y z = true →
      cmp x z = true)
    (l : List α) (h : IsHeapP cmp l) :
    IsHeapUpTo cmp (popHeap cmp l) (l.length - 1) := by
  unfold popHeap
  by_cases hlen : l.length ≤ 1
  · rw [if_pos hlen]
    intro k hk0 hkn
    omega
  · rw [if_neg hlen]
    refine siftDownF_heapAux cmp hasym htrans l.length _ 0 (l.length - 1)
      (by omega) (by omega) (by rw [length_lswap]; omega) ?_ ?_
    · intro k hk0 hkn hkp
      rw [geth_lswap_other l (by omega) (by omega),
        geth_lswap_other l (by omega) (by omega)]
      exact h k hk0 (by omega)
    · intro h0
      omega

end HeapLemmas

/-- The comparator-order facts instantiated for the heap lemmas. -/
theorem cmp_asym (tp : TreePriority) :
    ∀ x y : PairedTilingSetQueue, RasterOrderComparator tp x y = true →
      RasterOrderComparator tp y x = false :=
  fun x y h => RasterOrderComparator_asymm tp x y h

theorem cmp_trans (tp : TreePriority) :
    ∀ x y z : PairedTilingSetQueue, RasterOrderComparator tp x y = true →
      RasterOrderComparator tp y z = true →
      RasterOrderComparator tp x z = true :=
  fun x y z h1 h2 => RasterOrderComparator_trans tp x y z h1 h2

theorem cmp_negtrans (tp : TreePriority) :
    ∀ x y z : PairedTilingSetQueue, RasterOrderComparator tp x y = false →
      RasterOrderComparator tp y z = false →
      RasterOrderComparator tp x z = false :=
  fun x y z h1 h2 => RasterOrderComparator_negtrans tp x y z h1 h2

theorem RTPQ_Build_heap (s : RasterTilePriorityQueue)
    (paired_layers : List LayerPair) (tp : TreePriority) :
    IsHeapP (RasterOrderComparator tp)
      ((s.Build paired_layers tp).paired_queues) :=
  makeHeap_heap _ (cmp_asym tp) (cmp_trans tp) (cmp_negtrans tp) _

theorem RTPQ_Pop_heap (s : RasterTilePriorityQueue)
    (h : IsHeapP (RasterOrderComparator s.tree_priority) s.paired_queues) :
    IsHeapP (RasterOrderComparator s.tree_priority)
      s.Pop.paired_queues := by
  have hpre := popHeap_heap (RasterOrderComparator s.tree_priority)
    (cmp_asym s.tree_priority) (cmp_trans s.tree_priority)
    s.paired_queues h
  have hlenp := length_popHeap (RasterOrderComparator s.tree_priority)
    s.paired_queues
  show IsHeapP _ (pushHeap _ _)
  refine pushHeap_heap _ (cmp_asym s.tree_priority)
    (cmp_trans s.tree_priority) (cmp_negtrans s.tree_priority) _ ?_
  intro k hk0 hklen hkne
  rw [List.length_set] at hklen hkne
  have hpk : (k - 1) / 2 < k := parent_lt (by omega)
  rw [geth_set_ne _ (by omega) _, geth_set_ne _ (by omega) _]
  exact hpre k hk0 (by omega)

/-- C7: after `Build` the sequence is a valid max-heap under the
comparator; `Pop` — which removes the root via `pop_heap`, mutates that
pair via its inner `Pop`, then re-inserts it via `push_heap` — preserves
the heap condition; and `Pop` is definitionally that composition, never
mutating a pair while it sits inside the heap. -/
theorem C7_heap_invariant :
    (∀ (s : RasterTilePriorityQueue) (paired_layers : List LayerPair)
      (tp : TreePriority),
      isHeap (RasterOrderComparator tp)
        ((s.Build paired_layers tp).paired_queues) = true) ∧
    (∀ s : RasterTilePriorityQueue,
      isHeap (RasterOrderComparator s.tree_priority) s.paired_queues =
        true →
      isHeap (RasterOrderComparator s.tree_priority)
        s.Pop.paired_queues = true) ∧
    (∀ s : RasterTilePriorityQueue,
      s.Pop.paired_queues =
        pushHeap (RasterOrderComparator s.tree_priority)
          ((popHeap (RasterOrderComparator s.tree_priority)
              s.paired_queues).set
            ((popHeap (RasterOrderComparator s.tree_priority)
                s.paired_queues).length - 1)
            ((geth (popHeap (RasterOrderComparator s.tree_priority)
                s.paired_queues)
              ((popHeap (RasterOrderComparator s.tree_priority)
                  s.paired_queues).length - 1)).Pop s.tree_priority))) :=
  ⟨fun s paired_layers tp => (isHeap_iff _ _).2
      (RTPQ_Build_heap s paired_layers tp),
   fun s h => (isHeap_iff _ _).2 (RTPQ_Pop_heap s ((isHeap_iff _ _).1 h)),
   fun _ => rfl⟩

/-- A concrete two-pair heap state used by witnesses. -/
def rtpqTwoPairs : RasterTilePriorityQueue :=
  { paired_queues := [pairOfTile tileNowHigh, pairOfTile tileSoonHigh]
    tree_priority := SAME_PRIORITY_FOR_BOTH_TREES }

theorem C7_heap_invariant_witness :
    isHeap (RasterOrderComparator rtpqTwoPairs.tree_priority)
      rtpqTwoPairs.Pop.paired_queues = true :=
  C7_heap_invariant.2.1 rtpqTwoPairs (by decide)

/-- C8 (amended): `Reset` removes every paired queue; `Build` appends
one paired queue per element of its argument to whatever is already
present and heapifies, so only a `Build` on a fresh or just-`Reset`
container holds exactly one queue per element of `pairs` and nothing
from earlier builds. -/
theorem C8_reset_build :
    (∀ s : RasterTilePriorityQueue, s.Reset.paired_queues = []) ∧
    (∀ (s : RasterTilePriorityQueue) (paired_layers : List LayerPair)
      (tp : TreePriority),
      List.Perm ((s.Build paired_layers tp).paired_queues)
        (s.paired_queues ++
          paired_layers.map (fun p => mkPairedTilingSetQueue p tp))) ∧
    (∀ (s : RasterTilePriorityQueue) (paired_layers : List LayerPair)
      (tp : TreePriority),
      List.Perm ((s.Reset.Build paired_layers tp).paired_queues)
        (paired_layers.map (fun p => mkPairedTilingSetQueue p tp))) := by
  refine ⟨fun s => rfl, fun s paired_layers tp => makeHeap_perm _ _,
    fun s paired_layers tp => ?_⟩
  have h := makeHeap_perm (RasterOrderComparator tp)
    (s.Reset.paired_queues ++
      paired_layers.map (fun p => mkPairedTilingSetQueue p tp))
  simpa using h

/-- C8 (counterexample): calling `Build` twice with a one-element pair
list, without a `Reset` in between, leaves two paired queues — not
"exactly one per element of `pairs` and no pair from any earlier
Build". -/
theorem C8_counterexample :
    ((RasterTilePriorityQueue.init.Build
        [{ active := some [tileNowHigh], pending := none }]
        SAME_PRIORITY_FOR_BOTH_TREES).Build
      [{ active := some [tileNowHigh], pending := none }]
      SAME_PRIORITY_FOR_BOTH_TREES).paired_queues.length = 2 ∧
    ([{ active := some [tileNowHigh], pending := none }] :
      List LayerPair).length = 1 := by
  decide

/-!  ### Emission (drain) lemmas

The shared-tile skipping discipline: every tile the skip loop leaves on
a queue's top is either non-shared or owned (per the arbiter) by the
side about to emit it, and exhaustively popping a pair emits no tile
twice.
-/

/-- The tiles remaining in the active iterator (empty when absent). -/
def alist (q : PairedTilingSetQueue) : List Tile := q.active_queue.getD []

/-- The tiles remaining in the pending iterator (empty when absent). -/
def plist (q : PairedTilingSetQueue) : List Tile := q.pending_queue.getD []

/-- The tree the arbiter assigns a (shared) tile to, evaluated on the
tile alone. -/
def arb (tree_priority : TreePriority) (t : Tile) : WhichTree :=
  HigherPriorityTree tree_priority none none (some t)

/-- The state the skip loop establishes: empty, or the selected top tile
is non-shared, or the selected side is the tile's arbiter-assigned
tree. -/
def Vetted (tree_priority : TreePriority) (q : PairedTilingSetQueue) :
    Prop :=
  q.IsEmpty = true ∨ (q.Top tree_priority).is_shared = false ∨
    q.NextTileIteratorTree tree_priority =
      arb tree_priority (q.Top tree_priority)

theorem queueEmpty_eq_isEmpty (o : Option (List Tile)) :
    queueEmpty o = (o.getD []).isEmpty := by
  cases o <;> simp [queueEmpty]

theorem isEmpty_iff (q : PairedTilingSetQueue) :
    q.IsEmpty = true ↔ alist q = [] ∧ plist q = [] := by
  unfold PairedTilingSetQueue.IsEmpty alist plist
  rw [queueEmpty_eq_isEmpty, queueEmpty_eq_isEmpty]
  simp [List.isEmpty_iff]

theorem size_eq (q : PairedTilingSetQueue) :
    q.size = (alist q).length + (plist q).length := rfl

theorem size_zero_isEmpty (q : PairedTilingSetQueue) (h : q.size = 0) :
    q.IsEmpty = true := by
  rw [size_eq] at h
  rw [isEmpty_iff]
  constructor <;> [skip; skip] <;>
    simp [List.length_eq_zero.1 (by omega : (alist q).length = 0),
      List.length_eq_zero.1 (by omega : (plist q).length = 0)]

theorem next_active_ne_nil (tp : TreePriority) (q : PairedTilingSetQueue)
    (hne : q.IsEmpty = false)
    (h : q.NextTileIteratorTree tp = ACTIVE_TREE) : alist q ≠ [] := by
  unfold PairedTilingSetQueue.NextTileIteratorTree at h
  by_cases hA : queueEmpty q.active_queue
  · rw [if_pos hA] at h
    exact absurd h (by simp)
  · rw [queueEmpty_eq_isEmpty] at hA
    simpa [alist, List.isEmpty_iff] using hA

theorem next_pending_ne_nil (tp : TreePriority) (q : PairedTilingSetQueue)
    (hne : q.IsEmpty = false)
    (h : q.NextTileIteratorTree tp = PENDING_TREE) : plist q ≠ [] := by
  unfold PairedTilingSetQueue.NextTileIteratorTree at h
  by_cases hA : queueEmpty q.active_queue
  · have hP : queueEmpty q.pending_queue = false := by
      unfold PairedTilingSetQueue.IsEmpty at hne
      cases hPB : queueEmpty q.pending_queue
      · rfl
      · rw [hPB] at hne
        simp [hA] at hne
    rw [queueEmpty_eq_isEmpty] at hP
    simpa [plist, List.isEmpty_iff] using hP
  · rw [if_neg hA] at h
    by_cases hP : queueEmpty q.pending_queue
    · rw [if_pos hP] at h
      exact absurd h (by simp)
    · rw [queueEmpty_eq_isEmpty] at hP
      simpa [plist, List.isEmpty_iff] using hP

theorem top_eq_active (tp : TreePriority) (q : PairedTilingSetQueue)
    (h : q.NextTileIteratorTree tp = ACTIVE_TREE) :
    q.Top tp = (alist q).headD default := by
  unfold PairedTilingSetQueue.Top PairedTilingSetQueue.nextQueue
  rw [if_pos h]
  unfold queueTop alist
  rfl

theorem top_eq_pending (tp : TreePriority) (q : PairedTilingSetQueue)
    (h : q.NextTileIteratorTree tp = PENDING_TREE) :
    q.Top tp = (plist q).headD default := by
  unfold PairedTilingSetQueue.Top PairedTilingSetQueue.nextQueue
  rw [if_neg (by simp [h])]
  unfold queueTop plist
  rfl

theorem alist_popQueue (o : Option (List Tile)) :
    (popQueue o).getD [] = (o.getD []).tail := by
  cases o <;> simp [popQueue]

theorem popSelected_active (tp : TreePriority) (q : PairedTilingSetQueue)
    (h : q.NextTileIteratorTree tp = ACTIVE_TREE) :
    alist (q.popSelected tp) = (alist q).tail ∧
      plist (q.popSelected tp) = plist q ∧
      (q.popSelected tp).has_both_layers = q.has_both_layers := by
  unfold PairedTilingSetQueue.popSelected
  rw [if_pos h]
  exact ⟨alist_popQueue _, rfl, rfl⟩

theorem popSelected_pending (tp : TreePriority) (q : PairedTilingSetQueue)
    (h : q.NextTileIteratorTree tp = PENDING_TREE) :
    alist (q.popSelected tp) = alist q ∧
      plist (q.popSelected tp) = (plist q).tail ∧
      (q.popSelected tp).has_both_layers = q.has_both_layers := by
  unfold PairedTilingSetQueue.popSelected
  rw [if_neg (by simp [h])]
  exact ⟨rfl, alist_popQueue _, rfl⟩

theorem size_popSelected (tp : TreePriority) (q : PairedTilingSetQueue)
    (hne : q.IsEmpty = false) :
    (q.popSelected tp).size + 1 = q.size := by
  cases hnx : q.NextTileIteratorTree tp with
  | ACTIVE_TREE =>
    obtain ⟨h1, h2, _⟩ := popSelected_active tp q hnx
    have hA := next_active_ne_nil tp q hne hnx
    rw [size_eq, size_eq, h1, h2, List.length_tail]
    have : 0 < (alist q).length := List.length_pos.2 hA
    omega
  | PENDING_TREE =>
    obtain ⟨h1, h2, _⟩ := popSelected_pending tp q hnx
    have hP := next_pending_ne_nil tp q hne hnx
    rw [size_eq, size_eq, h1, h2, List.length_tail]
    have : 0 < (plist q).length := List.length_pos.2 hP
    omega

/-- The skip loop: the remaining lists are suffixes, the layer flag is
unchanged, the result is vetted, and a tile the arbiter assigns to the
side holding it is never dropped. -/
theorem skipLoop_spec (tp : TreePriority) :
    ∀ (fuel : Nat) (q : PairedTilingSetQueue), q.size ≤ fuel →
      (alist (skipLoop tp fuel q) <:+ alist q) ∧
      (plist (skipLoop tp fuel q) <:+ plist q) ∧
      (skipLoop tp fuel q).has_both_layers = q.has_both_layers ∧
      Vetted tp (skipLoop tp fuel q) ∧
      (∀ t, t ∈ alist q → (t.is_shared = true → arb tp t = ACTIVE_TREE) →
        t ∈ alist (skipLoop tp fuel q)) ∧
      (∀ t, t ∈ plist q → (t.is_shared = true → arb tp t = PENDING_TREE) →
        t ∈ plist (skipLoop tp fuel q))
  | 0, q, hfuel => by
    have hq : q.IsEmpty = true := size_zero_isEmpty q (by omega)
    exact ⟨List.suffix_refl _, List.suffix_refl _, rfl, Or.inl hq,
      fun t ht _ => ht, fun t ht _ => ht⟩
  | fuel + 1, q, hfuel => by
    unfold skipLoop
    by_cases hq : q.IsEmpty = true
    · rw [if_pos hq]
      exact ⟨List.suffix_refl _, List.suffix_refl _, rfl, Or.inl hq,
        fun t ht _ => ht, fun t ht _ => ht⟩
    · rw [if_neg hq]
      by_cases hsh : (q.Top tp).is_shared = false
      · rw [if_pos hsh]
        exact ⟨List.suffix_refl _, List.suffix_refl _, rfl,
          Or.inr (Or.inl hsh), fun t ht _ => ht, fun t ht _ => ht⟩
      · rw [if_neg hsh]
        by_cases harb : q.NextTileIteratorTree tp =
            HigherPriorityTree tp none none (some (q.Top tp))
        · rw [if_pos harb]
          exact ⟨List.suffix_refl _, List.suffix_refl _, rfl,
            Or.inr (Or.inr harb), fun t ht _ => ht, fun t ht _ => ht⟩
        · rw [if_neg harb]
          have hne : q.IsEmpty = false := Bool.eq_false_iff.2 hq
          have hsize : (q.popSelected tp).size ≤ fuel := by
            have := size_popSelected tp q hne
            omega
          obtain ⟨ihA, ihP, ihB, ihV, ihKA, ihKP⟩ :=
            skipLoop_spec tp fuel (q.popSelected tp) hsize
          have hshT : (q.Top tp).is_shared = true := by
            cases hB : (q.Top tp).is_shared
            · exact absurd hB hsh
            · rfl
          cases hnx : q.NextTileIteratorTree tp with
          | ACTIVE_TREE =>
            obtain ⟨h1, h2, h3⟩ := popSelected_active tp q hnx
            have hAne := next_active_ne_nil tp q hne hnx
            have htop : q.Top tp = (alist q).headD default :=
              top_eq_active tp q hnx
            refine ⟨(h1 ▸ ihA).trans (List.tail_suffix _),
              h2 ▸ ihP, h3 ▸ ihB, ihV, ?_, fun t ht hown =>
                ihKP t (h2.symm ▸ ht) hown⟩
            intro t ht hown
            rcases hcons : alist q with _ | ⟨t0, rest⟩
            · exact absurd hcons hAne
            · have htne : t ≠ t0 := by
                intro hcon
                subst hcon
                have : arb tp t = ACTIVE_TREE :=
                  hown (by rw [htop, hcons] at hshT; simpa using hshT)
                apply harb
                rw [hnx, htop, hcons]
                simpa [arb] using this.symm
              have htr : t ∈ (alist q).tail := by
                rw [hcons] at ht ⊢
                simpa [htne] using ht
              exact ihKA t (h1.symm ▸ htr) hown
          | PENDING_TREE =>
            obtain ⟨h1, h2, h3⟩ := popSelected_pending tp q hnx
            have hPne := next_pending_ne_nil tp q hne hnx
            have htop : q.Top tp = (plist q).headD default :=
              top_eq_pending tp q hnx
            refine ⟨h1 ▸ ihA, (h2 ▸ ihP).trans (List.tail_suffix _),
              h3 ▸ ihB, ihV, fun t ht hown =>
                ihKA t (h1.symm ▸ ht) hown, ?_⟩
            intro t ht hown
            rcases hcons : plist q with _ | ⟨t0, rest⟩
            · exact absurd hcons hPne
            · have htne : t ≠ t0 := by
                intro hcon
                subst hcon
                have : arb tp t = PENDING_TREE :=
                  hown (by rw [htop, hcons] at hshT; simpa using hshT)
                apply harb
                rw [hnx, htop, hcons]
                simpa [arb] using this.symm
              have htr : t ∈ (plist q).tail := by
                rw [hcons] at ht ⊢
                simpa [htne] using ht
              exact ihKP t (h2.symm ▸ htr) hown

theorem size_skipLoop_le (tp : TreePriority) (fuel : Nat)
    (q : PairedTilingSetQueue) (h : q.size ≤ fuel) :
    (skipLoop tp fuel q).size ≤ q.size := by
  obtain ⟨hA, hP, _, _, _, _⟩ := skipLoop_spec tp fuel q h
  rw [size_eq, size_eq]
  exact Nat.add_le_add hA.length_le hP.length_le

theorem size_Pop_lt (tp : TreePriority) (q : PairedTilingSetQueue)
    (hne : q.IsEmpty = false) : (q.Pop tp).size < q.size := by
  have hs0 : q.size ≠ 0 := by
    intro h
    rw [size_zero_isEmpty q h] at hne
    exact absurd hne (by simp)
  have hps := size_popSelected tp q hne
  unfold PairedTilingSetQueue.Pop
  by_cases hb : q.has_both_layers = true
  · rw [if_pos hb]
    have := size_skipLoop_le tp (q.popSelected tp).size
      (q.popSelected tp) (le_refl _)
    unfold PairedTilingSetQueue.SkipTilesReturnedByTwin
    omega
  · rw [if_neg hb]
    omega

theorem drainF_zero (tp : TreePriority) (q : PairedTilingSetQueue) :
    drainF tp 0 q = [] := rfl

theorem drainF_succ (tp : TreePriority) (fuel : Nat)
    (q : PairedTilingSetQueue) :
    drainF tp (fuel + 1) q =
      if q.IsEmpty then [] else
        q.Top tp :: drainF tp fuel (q.Pop tp) := rfl

theorem drainF_eq_of_le (tp : TreePriority) :
    ∀ (fuel : Nat) (q : PairedTilingSetQueue), q.size ≤ fuel →
      drainF tp fuel q = drainF tp q.size q := by
  intro fuel
  induction fuel using Nat.strong_induction_on with
  | _ fuel ih =>
    rcases fuel with _ | f
    · intro q hq
      rw [show q.size = 0 by omega]
    · intro q hq
      by_cases hq0 : q.IsEmpty = true
      · have h1 : drainF tp (f + 1) q = [] := by
          rw [drainF_succ, if_pos hq0]
        have h2 : drainF tp q.size q = [] := by
          cases hs : q.size
          · rfl
          · rw [drainF_succ, if_pos hq0]
        rw [h1, h2]
      · have hne : q.IsEmpty = false := Bool.eq_false_iff.2 hq0
        have hs0 : q.size ≠ 0 := by
          intro h
          exact hq0 (size_zero_isEmpty q h)
        obtain ⟨s, hs⟩ : ∃ s, q.size = s + 1 := ⟨q.size - 1, by omega⟩
        have hPlt : (q.Pop tp).size < q.size := size_Pop_lt tp q hne
        have e1 : drainF tp (f + 1) q =
            q.Top tp :: drainF tp f (q.Pop tp) := by
          rw [drainF_succ, if_neg hq0]
        have e2 : drainF tp q.size q =
            q.Top tp :: drainF tp s (q.Pop tp) := by
          rw [hs, drainF_succ, if_neg hq0]
        rw [e1, e2]
        have r1 := ih f (by omega) (q.Pop tp) (by omega)
        have r2 := ih s (by omega) (q.Pop tp) (by omega)
        rw [r1, r2]

theorem drain_cons (tp : TreePriority) (q : PairedTilingSetQueue)
    (hne : q.IsEmpty = false) :
    q.drain tp = q.Top tp :: (q.Pop tp).drain tp := by
  have hs0 : q.size ≠ 0 := by
    intro h
    rw [size_zero_isEmpty q h] at hne
    exact absurd hne (by simp)
  obtain ⟨s, hs⟩ : ∃ s, q.size = s + 1 := ⟨q.size - 1, by omega⟩
  have hPlt : (q.Pop tp).size < q.size := size_Pop_lt tp q hne
  unfold PairedTilingSetQueue.drain
  rw [hs, drainF_succ, if_neg (by simp [hne])]
  rw [drainF_eq_of_le tp s (q.Pop tp) (by omega)]

theorem drain_nil (tp : TreePriority) (q : PairedTilingSetQueue)
    (hq : q.IsEmpty = true) : q.drain tp = [] := by
  unfold PairedTilingSetQueue.drain
  cases hs : q.size
  · rfl
  · rw [drainF_succ, if_pos hq]

/-- The central emission lemma for two-layer pairs: on a vetted
well-formed state, every emitted tile comes from the side the arbiter
lets emit it, the emission sequence has no duplicates, and every tile
still held by its arbiter-assigned side is eventually emitted. -/
theorem drain_spec (tp : TreePriority) :
    ∀ (N : Nat) (q : PairedTilingSetQueue), q.size ≤ N →
      q.has_both_layers = true → (alist q).Nodup → (plist q).Nodup →
      (∀ t, t ∈ alist q → t ∈ plist q → t.is_shared = true) →
      Vetted tp q →
      (∀ t ∈ q.drain tp,
        (t ∈ alist q ∧ (t.is_shared = true → arb tp t = ACTIVE_TREE)) ∨
        (t ∈ plist q ∧ (t.is_shared = true → arb tp t = PENDING_TREE))) ∧
      (q.drain tp).Nodup ∧
      (∀ t, t.is_shared = true →
        ((arb tp t = ACTIVE_TREE ∧ t ∈ alist q) ∨
         (arb tp t = PENDING_TREE ∧ t ∈ plist q)) →
        t ∈ q.drain tp) := by
  intro N
  induction N using Nat.strong_induction_on with
  | _ N ih =>
    intro q hN hb hnA hnP hcross hvet
    by_cases hq : q.IsEmpty = true
    · rw [drain_nil tp q hq]
      obtain ⟨heA, heP⟩ := (isEmpty_iff q).1 hq
      refine ⟨fun t ht => absurd ht (by simp), List.nodup_nil, ?_⟩
      intro t _ howner
      rcases howner with ⟨_, hmem⟩ | ⟨_, hmem⟩
      · rw [heA] at hmem
        exact absurd hmem (by simp)
      · rw [heP] at hmem
        exact absurd hmem (by simp)
    · have hne : q.IsEmpty = false := Bool.eq_false_iff.2 hq
      have hdc := drain_cons tp q hne
      have hskip := skipLoop_spec tp (q.popSelected tp).size
        (q.popSelected tp) (le_refl _)
      have hPop : q.Pop tp =
          skipLoop tp (q.popSelected tp).size (q.popSelected tp) := by
        unfold PairedTilingSetQueue.Pop
          PairedTilingSetQueue.SkipTilesReturnedByTwin
        rw [if_pos hb]
      rw [← hPop] at hskip
      obtain ⟨hsA, hsP, hsB, hsV, hsKA, hsKP⟩ := hskip
      have hvet' : (q.Top tp).is_shared = true →
          arb tp (q.Top tp) = q.NextTileIteratorTree tp := by
        intro hsh
        rcases hvet with h | h | h
        · exact absurd h hq
        · rw [hsh] at h
          exact absurd h (by simp)
        · exact h.symm
      have hszlt := size_Pop_lt tp q hne
      have hsz1 : 1 ≤ q.size := by
        by_contra hcon
        exact hq (size_zero_isEmpty q (by omega))
      cases hnx : q.NextTileIteratorTree tp with
      | ACTIVE_TREE =>
        obtain ⟨hp1, hp2, hp3⟩ := popSelected_active tp q hnx
        have hAne := next_active_ne_nil tp q hne hnx
        rcases hcons : alist q with _ | ⟨t0, rest⟩
        · exact absurd hcons hAne
        · have htop : q.Top tp = t0 := by
            rw [top_eq_active tp q hnx, hcons]
            rfl
          rw [hp1, hcons] at hsA hsKA
          rw [hp2] at hsP hsKP
          simp only [List.tail_cons] at hsA hsKA
          have hboth' : (q.Pop tp).has_both_layers = true := by
            rw [hsB, hp3, hb]
          have hnA' : (alist (q.Pop tp)).Nodup := by
            rw [hcons] at hnA
            exact ((List.nodup_cons.1 hnA).2).sublist hsA.sublist
          have hnP' : (plist (q.Pop tp)).Nodup := hnP.sublist hsP.sublist
          have hcross' : ∀ t, t ∈ alist (q.Pop tp) →
              t ∈ plist (q.Pop tp) → t.is_shared = true := by
            intro t htA htP
            refine hcross t ?_ (hsP.subset htP)
            rw [hcons]
            exact List.mem_cons_of_mem t0 (hsA.subset htA)
          obtain ⟨ihE1, ihE2, ihE3⟩ := ih (N - 1) (by omega) (q.Pop tp)
            (by omega) hboth' hnA' hnP' hcross' hsV
          refine ⟨?_, ?_, ?_⟩
          · intro t ht
            rw [hdc] at ht
            rcases List.mem_cons.1 ht with ht | ht
            · subst ht
              left
              constructor
              · rw [htop]
                exact List.mem_cons_self _ _
              · intro hsh
                rw [hvet' hsh, hnx]
            · rcases ihE1 t ht with ⟨hmem, hown⟩ | ⟨hmem, hown⟩
              · left
                exact ⟨List.mem_cons_of_mem t0 (hsA.subset hmem), hown⟩
              · right
                exact ⟨hsP.subset hmem, hown⟩
          · rw [hdc]
            refine List.nodup_cons.2 ⟨?_, ihE2⟩
            intro hmem
            rcases ihE1 (q.Top tp) hmem with ⟨hmemA, _⟩ | ⟨hmemP, hown⟩
            · rw [hcons] at hnA
              rw [htop] at hmemA
              exact (List.nodup_cons.1 hnA).1 (hsA.subset hmemA)
            · have ht0P : q.Top tp ∈ plist q := hsP.subset hmemP
              have ht0A : q.Top tp ∈ alist q := by
                rw [htop, hcons]
                exact List.mem_cons_self _ _
              have hsh := hcross _ ht0A ht0P
              have h1 := hown hsh
              have h2 := hvet' hsh
              rw [hnx] at h2
              rw [h1] at h2
              exact absurd h2 (by simp)
          · intro t hsh howner
            by_cases hte : t = q.Top tp
            · rw [hdc, hte]
              exact List.mem_cons_self _ _
            · rw [hdc]
              refine List.mem_cons_of_mem _ ?_
              rcases howner with ⟨harb, hmem⟩ | ⟨harb, hmem⟩
              · have htr : t ∈ rest := by
                  rcases List.mem_cons.1 hmem with h | h
                  · exact absurd (h.trans htop.symm) hte
                  · exact h
                exact ihE3 t hsh (Or.inl ⟨harb,
                  hsKA t htr (fun _ => harb)⟩)
              · exact ihE3 t hsh (Or.inr ⟨harb,
                  hsKP t hmem (fun _ => harb)⟩)
      | PENDING_TREE =>
        obtain ⟨hp1, hp2, hp3⟩ := popSelected_pending tp q hnx
        have hPne := next_pending_ne_nil tp q hne hnx
        rcases hcons : plist q with _ | ⟨t0, rest⟩
        · exact absurd hcons hPne
        · have htop : q.Top tp = t0 := by
            rw [top_eq_pending tp q hnx, hcons]
            rfl
          rw [hp2, hcons] at hsP hsKP
          rw [hp1] at hsA hsKA
          simp only [List.tail_cons] at hsP hsKP
          have hboth' : (q.Pop tp).has_both_layers = true := by
            rw [hsB, hp3, hb]
          have hnP' : (plist (q.Pop tp)).Nodup := by
            rw [hcons] at hnP
            exact ((List.nodup_cons.1 hnP).2).sublist hsP.sublist
          have hnA' : (alist (q.Pop tp)).Nodup := hnA.sublist hsA.sublist
          have hcross' : ∀ t, t ∈ alist (q.Pop tp) →
              t ∈ plist (q.Pop tp) → t.is_shared = true := by
            intro t htA htP
            refine hcross t (hsA.subset htA) ?_
            rw [hcons]
            exact List.mem_cons_of_mem t0 (hsP.subset htP)
          obtain ⟨ihE1, ihE2, ihE3⟩ := ih (N - 1) (by omega) (q.Pop tp)
            (by omega) hboth' hnA' hnP' hcross' hsV
          refine ⟨?_, ?_, ?_⟩
          · intro t ht
            rw [hdc] at ht
            rcases List.mem_cons.1 ht with ht | ht
            · subst ht
              right
              constructor
              · rw [htop]
                exact List.mem_cons_self _ _
              · intro hsh
                rw [hvet' hsh, hnx]
            · rcases ihE1 t ht with ⟨hmem, hown⟩ | ⟨hmem, hown⟩
              · left
                exact ⟨hsA.subset hmem, hown⟩
              · right
                exact ⟨List.mem_cons_of_mem t0 (hsP.subset hmem), hown⟩
          · rw [hdc]
            refine List.nodup_cons.2 ⟨?_, ihE2⟩
            intro hmem
            rcases ihE1 (q.Top tp) hmem with ⟨hmemA, hown⟩ | ⟨hmemP, _⟩
            · have ht0A : q.Top tp ∈ alist q := hsA.subset hmemA
              have ht0P : q.Top tp ∈ plist q := by
                rw [htop, hcons]
                exact List.mem_cons_self _ _
              have hsh := hcross _ ht0A ht0P
              have h1 := hown hsh
              have h2 := hvet' hsh
              rw [hnx] at h2
              rw [h1] at h2
              exact absurd h2 (by simp)
            · rw [hcons] at hnP
              rw [htop] at hmemP
              exact (List.nodup_cons.1 hnP).1 (hsP.subset hmemP)
          · intro t hsh howner
            by_cases hte : t = q.Top tp
            · rw [hdc, hte]
              exact List.mem_cons_self _ _
            · rw [hdc]
              refine List.mem_cons_of_mem _ ?_
              rcases howner with ⟨harb, hmem⟩ | ⟨harb, hmem⟩
              · exact ihE3 t hsh (Or.inl ⟨harb,
                  hsKA t hmem (fun _ => harb)⟩)
              · have htr : t ∈ rest := by
                  rcases List.mem_cons.1 hmem with h | h
                  · exact absurd (h.trans htop.symm) hte
                  · exact h
                exact ihE3 t hsh (Or.inr ⟨harb,
                  hsKP t htr (fun _ => harb)⟩)

/-- Abbreviation for building a paired-queue state in proofs. -/
def mkQ (a p : Option (List Tile)) (b : Bool) : PairedTilingSetQueue :=
  { active_queue := a, pending_queue := p, has_both_layers := b }

theorem drain_active_only (tp : TreePriority) :
    ∀ (A : List Tile) (fuel : Nat), A.length ≤ fuel →
      drainF tp fuel (mkQ (some A) none false) = A := by
  intro A
  induction A with
  | nil =>
    intro fuel _
    cases fuel
    · rfl
    · rw [drainF_succ, if_pos (by simp [mkQ, PairedTilingSetQueue.IsEmpty,
        queueEmpty])]
  | cons t A' ih =>
    intro fuel hlen
    obtain ⟨f, rfl⟩ : ∃ f, fuel = f + 1 :=
      ⟨fuel - 1, by simp at hlen; omega⟩
    have hne : (mkQ (some (t :: A')) none false).IsEmpty = false := by
      simp [mkQ, PairedTilingSetQueue.IsEmpty, queueEmpty]
    have hnx : (mkQ (some (t :: A')) none false).NextTileIteratorTree tp =
        ACTIVE_TREE := by
      simp [mkQ, PairedTilingSetQueue.NextTileIteratorTree, queueEmpty]
    have htop : (mkQ (some (t :: A')) none false).Top tp = t := by
      unfold PairedTilingSetQueue.Top PairedTilingSetQueue.nextQueue
      rw [if_pos hnx]
      rfl
    have hpop : (mkQ (some (t :: A')) none false).Pop tp =
        mkQ (some A') none false := by
      unfold PairedTilingSetQueue.Pop PairedTilingSetQueue.popSelected
      rw [if_neg (by simp [mkQ])]
      rw [if_pos hnx]
      rfl
    rw [drainF_succ, if_neg (by simp [hne]), htop, hpop,
      ih f (by simp at hlen ⊢; omega)]

theorem drain_pending_only (tp : TreePriority) :
    ∀ (P : List Tile) (fuel : Nat), P.length ≤ fuel →
      drainF tp fuel (mkQ none (some P) false) = P := by
  intro P
  induction P with
  | nil =>
    intro fuel _
    cases fuel
    · rfl
    · rw [drainF_succ, if_pos (by simp [mkQ, PairedTilingSetQueue.IsEmpty,
        queueEmpty])]
  | cons t P' ih =>
    intro fuel hlen
    obtain ⟨f, rfl⟩ : ∃ f, fuel = f + 1 :=
      ⟨fuel - 1, by simp at hlen; omega⟩
    have hne : (mkQ none (some (t :: P')) false).IsEmpty = false := by
      simp [mkQ, PairedTilingSetQueue.IsEmpty, queueEmpty]
    have hnx : (mkQ none (some (t :: P')) false).NextTileIteratorTree tp =
        PENDING_TREE := by
      simp [mkQ, PairedTilingSetQueue.NextTileIteratorTree, queueEmpty]
    have htop : (mkQ none (some (t :: P')) false).Top tp = t := by
      unfold PairedTilingSetQueue.Top PairedTilingSetQueue.nextQueue
      rw [if_neg (by simp [hnx])]
      rfl
    have hpop : (mkQ none (some (t :: P')) false).Pop tp =
        mkQ none (some P') false := by
      unfold PairedTilingSetQueue.Pop PairedTilingSetQueue.popSelected
      rw [if_neg (by simp [mkQ])]
      rw [if_neg (by simp [hnx])]
      rfl
    rw [drainF_succ, if_neg (by simp [hne]), htop, hpop,
      ih f (by simp at hlen ⊢; omega)]

/-- C2: an exhaustive sequence of `Pop` calls on a `PairedTilingSetQueue`
never emits a tile twice — given the external iterator contract that
each iterator enumerates distinct tiles and a tile enumerated by both
iterators of a pair is shared — and every shared tile enumerated by both
iterators of a two-sided pair is emitted exactly once. -/
theorem C2_no_duplicate_emission (pair : LayerPair) (tp : TreePriority)
    (hA : (pair.active.getD []).Nodup)
    (hP : (pair.pending.getD []).Nodup)
    (hcross : ∀ t ∈ pair.active.getD [], t ∈ pair.pending.getD [] →
      t.is_shared = true) :
    ((mkPairedTilingSetQueue pair tp).drain tp).Nodup ∧
    (∀ t, t.is_shared = true → t ∈ pair.active.getD [] →
      t ∈ pair.pending.getD [] →
      ((mkPairedTilingSetQueue pair tp).drain tp).count t = 1) := by
  rcases pair with ⟨oA, oP⟩
  rcases oA with _ | A
  · rcases oP with _ | P
    · have hmk : mkPairedTilingSetQueue
          ({ active := none, pending := none } : LayerPair) tp =
          mkQ none none false := rfl
      rw [hmk]
      constructor
      · rw [drain_nil tp _ (by simp [mkQ, PairedTilingSetQueue.IsEmpty,
          queueEmpty])]
        exact List.nodup_nil
      · intro t _ htA _
        exact absurd htA (by simp)
    · have hmk : mkPairedTilingSetQueue
          ({ active := none, pending := some P } : LayerPair) tp =
          mkQ none (some P) false := rfl
      rw [hmk]
      constructor
      · unfold PairedTilingSetQueue.drain
        rw [drain_pending_only tp P _ (by rw [size_eq]; simp [mkQ, alist, plist])]
        simpa using hP
      · intro t _ htA _
        exact absurd htA (by simp)
  · rcases oP with _ | P
    · have hmk : mkPairedTilingSetQueue
          ({ active := some A, pending := none } : LayerPair) tp =
          mkQ (some A) none false := rfl
      rw [hmk]
      constructor
      · unfold PairedTilingSetQueue.drain
        rw [drain_active_only tp A _ (by rw [size_eq]; simp [mkQ, alist, plist])]
        simpa using hA
      · intro t _ _ htP
        exact absurd htP (by simp)
    · -- the two-sided case: the constructor runs the skip loop, after
      -- which the central emission lemma applies
      have hmk : mkPairedTilingSetQueue
          ({ active := some A, pending := some P } : LayerPair) tp =
          skipLoop tp (mkQ (some A) (some P) true).size
            (mkQ (some A) (some P) true) := rfl
      simp only [Option.getD_some] at hA hP hcross
      obtain ⟨hsA, hsP, hsB, hsV, hsKA, hsKP⟩ := skipLoop_spec tp
        (mkQ (some A) (some P) true).size (mkQ (some A) (some P) true)
        (le_refl _)
      rw [← hmk] at hsA hsP hsB hsV hsKA hsKP
      have haq : alist (mkQ (some A) (some P) true) = A := rfl
      have hpq : plist (mkQ (some A) (some P) true) = P := rfl
      rw [haq] at hsA hsKA
      rw [hpq] at hsP hsKP
      obtain ⟨hE1, hE2, hE3⟩ := drain_spec tp
        (mkPairedTilingSetQueue
          ({ active := some A, pending := some P } : LayerPair) tp).size
        (mkPairedTilingSetQueue
          ({ active := some A, pending := some P } : LayerPair) tp)
        (le_refl _) (by rw [hsB]; rfl) (hA.sublist hsA.sublist)
        (hP.sublist hsP.sublist)
        (fun t htA htP => hcross t (hsA.subset htA) (hsP.subset htP)) hsV
      refine ⟨hE2, ?_⟩
      intro t hsh htA htP
      simp only [Option.getD_some] at htA htP
      have hmem : t ∈ (mkPairedTilingSetQueue
          ({ active := some A, pending := some P } : LayerPair) tp).drain
            tp := by
        cases harb : arb tp t with
        | ACTIVE_TREE =>
          exact hE3 t hsh (Or.inl ⟨harb, hsKA t htA (fun _ => harb)⟩)
        | PENDING_TREE =>
          exact hE3 t hsh (Or.inr ⟨harb, hsKP t htP (fun _ => harb)⟩)
      exact List.count_eq_one_of_mem hE2 hmem

/-- A shared tile (both trees reference it); under
`SAME_PRIORITY_FOR_BOTH_TREES` the arbiter assigns it to the active
tree (distance 1 beats distance 2). -/
def tileSharedNow : Tile :=
  { active_priority :=
      { priority_bin := NOW, resolution := HIGH_RESOLUTION,
        distance_to_visible := 1 }
    pending_priority :=
      { priority_bin := NOW, resolution := HIGH_RESOLUTION,
        distance_to_visible := 2 }
    shared := true }

/-- A two-sided pair whose shared tile heads both iterators. -/
def pairShared : LayerPair :=
  { active := some [tileSharedNow, tileSoonHigh]
    pending := some [tileSharedNow] }

theorem C2_no_duplicate_emission_witness :
    ((mkPairedTilingSetQueue pairShared
        SAME_PRIORITY_FOR_BOTH_TREES).drain
      SAME_PRIORITY_FOR_BOTH_TREES).count tileSharedNow = 1 :=
  (C2_no_duplicate_emission pairShared SAME_PRIORITY_FOR_BOTH_TREES
    (by decide) (by decide) (by decide)).2 tileSharedNow (by decide)
    (by decide) (by decide)

/-- C10: a pair built from a single present layer never runs the twin
skip discipline: its `has_both_layers` flag is false and its exhaustive
emission is exactly its one iterator's tile sequence, shared tiles
included, in iterator order. -/
theorem C10_single_layer_no_skip (pair : LayerPair) (tp : TreePriority) :
    (∀ A, pair.active = some A → pair.pending = none →
      (mkPairedTilingSetQueue pair tp).has_both_layers = false ∧
      (mkPairedTilingSetQueue pair tp).drain tp = A) ∧
    (∀ P, pair.active = none → pair.pending = some P →
      (mkPairedTilingSetQueue pair tp).has_both_layers = false ∧
      (mkPairedTilingSetQueue pair tp).drain tp = P) := by
  obtain ⟨pa, pp⟩ := pair
  constructor
  · intro A hA hP
    simp only at hA hP
    subst hA
    subst hP
    refine ⟨rfl, ?_⟩
    show (mkQ (some A) none false).drain tp = A
    unfold PairedTilingSetQueue.drain
    exact drain_active_only tp A _ (by rw [size_eq]; simp [mkQ, alist, plist])
  · intro P hA hP
    simp only at hA hP
    subst hA
    subst hP
    refine ⟨rfl, ?_⟩
    show (mkQ none (some P) false).drain tp = P
    unfold PairedTilingSetQueue.drain
    exact drain_pending_only tp P _ (by rw [size_eq]; simp [mkQ, alist, plist])

/-- A single-layer pair whose iterator contains a shared tile. -/
def pairSingleShared : LayerPair :=
  { active := some [tileSharedNow, tileNowHigh], pending := none }

theorem C10_single_layer_no_skip_witness :
    (mkPairedTilingSetQueue pairSingleShared
        SAME_PRIORITY_FOR_BOTH_TREES).has_both_layers = false ∧
      (mkPairedTilingSetQueue pairSingleShared
          SAME_PRIORITY_FOR_BOTH_TREES).drain
        SAME_PRIORITY_FOR_BOTH_TREES = [tileSharedNow, tileNowHigh] :=
  (C10_single_layer_no_skip pairSingleShared
    SAME_PRIORITY_FOR_BOTH_TREES).1 [tileSharedNow, tileNowHigh] rfl rfl

/-- A pair with no active queue and a non-empty pending queue — the
failing input for the `StateAsValue` pending dictionary. -/
def pairPendingOnly : PairedTilingSetQueue :=
  mkQ none (some [tileNowHigh]) false

/-- C9: the claim is right and the code is wrong — in `StateAsValue` the
pending dictionary's `"has_tile"` is set from `active_queue_has_tile`
(a copy-paste slip the spec itself flags), so for every state it
reports the active queue's non-emptiness; on a pair with no active
queue and a non-empty pending queue it reports `false` although the
pending queue holds a tile. -/
theorem C9_pending_has_tile_bug :
    (∀ q : PairedTilingSetQueue,
      (q.StateAsValue).pending_queue_dict.has_tile =
        !queueEmpty q.active_queue) ∧
    ((pairPendingOnly.StateAsValue).pending_queue_dict.has_tile = false ∧
      queueEmpty pairPendingOnly.pending_queue = false) := by
  constructor
  · intro q
    unfold PairedTilingSetQueue.StateAsValue
    simp only []
    split_ifs <;> rfl
  · constructor
    · decide
    · decide

end RasterTPQ

